import Mathlib

/-!
Shallow embedding of the bundled ray dispatch / occlusion resolution scheduler
(`src/lib/rendering/pbr/handlers/RayHandlers.cc` and `XPURayHandlers.cc`).

Conventions:
* `scene_rdl2::math::Color` is modelled with exact rational components; the
  claims under study concern the algebraic structure of the computations, not
  floating-point rounding.
* Collaborators that live outside the repository (the Embree / GPU
  accelerators, the presence evaluator) are passed in as oracles: a function
  giving, per ray, the answer the accelerator would return.
* Side effects (emitting a BundledRadiance, releasing a handle, an AOV/LPE
  accumulation call) are reified as lists of operations in an `Effects`
  record, appended in program order.
-/

namespace MoonrayPbr

/-- RGB color (models scene_rdl2::math::Color) with exact rational components. -/
structure Color where
  r : ℚ
  g : ℚ
  b : ℚ
deriving DecidableEq

/-- Componentwise product, as used for transmittance attenuation. -/
instance : Mul Color := ⟨fun a b => ⟨a.r * b.r, a.g * b.g, a.b * b.b⟩⟩

/-- Componentwise sum. -/
instance : Add Color := ⟨fun a b => ⟨a.r + b.r, a.g + b.g, a.b + b.b⟩⟩

/-- Scalar scaling of a color. -/
instance : SMul ℚ Color := ⟨fun s c => ⟨s * c.r, s * c.g, s * c.b⟩⟩

/-- scene_rdl2::math::sBlack. -/
def sBlack : Color := ⟨0, 0, 0⟩

/-- scene_rdl2::math::sWhite. -/
def sWhite : Color := ⟨1, 1, 1⟩

/-- A color with all three components strictly positive. -/
def Color.allPos (c : Color) : Prop := 0 < c.r ∧ 0 < c.g ∧ 0 < c.b

/-- Modelled from the spec: `reduceTransparency` (RayHandlerUtils.h, which is not
under src/) reduces a transparency color to a scalar; we model it as the average
of the three channels.  None of the claims depend on the particular reduction. -/
def reduceTransparency (c : Color) : ℚ := (c.r + c.g + c.b) / 3

/-- A light, restricted to the attributes this scheduler consults
(clear-radius falloff parameters and the opacity-in-alpha flag). -/
structure Light where
  clearRadius : ℚ
  clearRadiusFalloffDistance : ℚ
  isOpaqueInAlpha : Bool
deriving DecidableEq

/-- The contents reachable through a non-null `mDataPtrHandle`: the first
`BundledOcclRayData` list item (which carries the light and the ray epsilon)
together with the list item count returned by `getNumListItems`. -/
structure SideData where
  light : Light
  rayEpsilon : ℚ
  numItems : ℕ
deriving DecidableEq

/-- OcclTestType (STANDARD vs FORCE_NOT_OCCLUDED). -/
inductive OcclTestType
  | STANDARD
  | FORCE_NOT_OCCLUDED
deriving DecidableEq

/-- One BundledOcclRay.  `sideData = none` models `mDataPtrHandle == nullHandle`;
`tr` is the volumetric transmittance that the `getTransmittance` collaborator
(RayHandlerUtils.h, not under src/) would return for this ray. -/
structure BundledOcclRay where
  mRadiance : Color
  mMinT : ℚ
  mMaxT : ℚ
  mOcclTestType : OcclTestType
  sideData : Option SideData
  mDeepDataHandle : ℕ
  mCryptomatteDataHandle : ℕ
  tr : Color
  mPathPixelWeight : ℚ
  mPixel : ℕ
  mSubPixelIndex : ℕ
deriving DecidableEq

/-- Modelled from the spec: `getTransmittance` (RayHandlerUtils.h, not under
src/) computes the volumetric transmittance for an occlusion ray; we carry its
result as a field of the ray. -/
def getTransmittance (r : BundledOcclRay) : Color := r.tr

/-- One retired BundledRadiance contribution. -/
structure BundledRadiance where
  mRadiance : Color
  mAlpha : ℚ
  mPathPixelWeight : ℚ
  mPixel : ℕ
  mSubPixelIndex : ℕ
  mDeepDataHandle : ℕ
  mCryptomatteDataHandle : ℕ
deriving DecidableEq

/-- Modelled from the spec: `fillBundledRadiance` (RayHandlerUtils.h, not under
src/) copies the occlusion ray's radiance and routing/side-data fields into a
BundledRadiance destined for the radiance queue. -/
def fillBundledRadiance (r : BundledOcclRay) : BundledRadiance :=
  { mRadiance := r.mRadiance
    mAlpha := 0
    mPathPixelWeight := r.mPathPixelWeight
    mPixel := r.mPixel
    mSubPixelIndex := r.mSubPixelIndex
    mDeepDataHandle := r.mDeepDataHandle
    mCryptomatteDataHandle := r.mCryptomatteDataHandle }

/-- Modelled from the spec: `calculateShadowFalloff` (RayHandlerUtils.h, not
under src/) weights a partial radiance contribution by how far the occluder
distance sits inside `[clearRadius, clearRadius + clearRadiusFalloffDistance]`:
full weight at or below the clear radius, falling off linearly to zero at the
far end of the falloff band. -/
def calculateShadowFalloff (light : Light) (distToOccluder : ℚ) (rad : Color) : Color :=
  let w : ℚ :=
    if distToOccluder ≤ light.clearRadius then 1
    else (light.clearRadius + light.clearRadiusFalloffDistance - distToOccluder) /
         light.clearRadiusFalloffDistance
  w • rad

/-- The AovSchema LPE flag values consulted by the handlers. -/
inductive LpeFlag
  | lpeNone
  | lpeUnoccluded
deriving DecidableEq

/-- The slice of FrameState these handlers read. -/
structure FrameState where
  enableShadowing : Bool
  hasLpePrefixUnoccludedFlags : Bool
  aovSchemaEmpty : Bool
  lightSampleCount : ℕ
  lightCount : ℕ
  maxPresenceDepth : ℕ
deriving DecidableEq

/-- A reified AOV/LPE accumulation call, recording the arguments the handler
passed to the accounting system. -/
inductive AovOp
  | lightAovs (numItems : ℕ) (matchValue : Color) (nonMatchValue : Option Color) (flag : LpeFlag)
  | visibilityAovs (numItems : ℕ) (value : ℚ)
  | visibilityAovsOccluded (numItems : ℕ)
  | visibilityAttempts (attempts : ℕ) (pixel : ℕ)
  | backgroundExtra (pixel : ℕ) (subpixelIndex : ℕ)
  | stateVarsVolumeOnly (pixel : ℕ)
  | lightAovsBundled (radiance : Color) (lpeStateId : ℤ) (pixel : ℕ)
deriving DecidableEq

/-- A reified resource-release call on the thread-local state. -/
inductive ReleaseOp
  | freeList
  | releaseDeep (h : ℕ)
  | releaseCrypto (h : ℕ)
deriving DecidableEq

/-- The observable effects of processing a batch: emitted radiances, handle
releases, AOV accounting calls, and the rays submitted to the accelerator's
`occluded` query, each in program order. -/
structure Effects where
  radiances : List BundledRadiance
  releases : List ReleaseOp
  aovs : List AovOp
  occlTests : List BundledOcclRay
deriving DecidableEq

def Effects.empty : Effects := ⟨[], [], [], []⟩

def Effects.append (a b : Effects) : Effects :=
  ⟨a.radiances ++ b.radiances, a.releases ++ b.releases,
   a.aovs ++ b.aovs, a.occlTests ++ b.occlTests⟩

/-- Concatenate per-ray effects in batch order. -/
def effConcat (l : List Effects) : Effects := l.foldr Effects.append Effects.empty

/-- The release calls executed at the bottom of the loop bodies in
`areSingleRaysOccluded` (RayHandlers.cc:133-139) and
`forceSingleRaysUnoccluded` (RayHandlers.cc:174-180): free the side-data list
if the handle is non-null, then release the deep and cryptomatte handles. -/
def cpuOcclReleaseOps (r : BundledOcclRay) : List ReleaseOp :=
  (if r.sideData.isSome then [ReleaseOp.freeList] else []) ++
  [ReleaseOp.releaseDeep r.mDeepDataHandle, ReleaseOp.releaseCrypto r.mCryptomatteDataHandle]

/-- The release calls executed at the bottom of the loop body in
`computeXPUOcclusionQueriesOnGPU` (XPURayHandlers.cc:170-175): free the
side-data list if the handle is non-null, then release the deep handle.
(There is no `releaseCryptomatteData` call on this path.) -/
def gpuOcclReleaseOps (r : BundledOcclRay) : List ReleaseOp :=
  (if r.sideData.isSome then [ReleaseOp.freeList] else []) ++
  [ReleaseOp.releaseDeep r.mDeepDataHandle]

/-- One iteration of the loop of `areSingleRaysOccluded`
(RayHandlers.cc:51-140), given the accelerator's occlusion answer for the ray.
The loop body asserts `mOcclTestType == STANDARD` and dereferences
`mDataPtrHandle` to build the Embree ray, so callers only reach it with
STANDARD rays. -/
def areSingleRaysOccludedStep (fs : FrameState) (isOccluded : Bool)
    (occlRay : BundledOcclRay) : Effects :=
  let disableShadowing := !fs.enableShadowing
  if !isOccluded || disableShadowing then
    let tr := getTransmittance occlRay
    let ray2 := { occlRay with mRadiance := occlRay.mRadiance * tr }
    let rad := fillBundledRadiance ray2
    let aovs :=
      match occlRay.sideData with
      | some sd =>
          [AovOp.lightAovs sd.numItems sWhite (some tr) LpeFlag.lpeUnoccluded,
           AovOp.visibilityAovs sd.numItems (reduceTransparency tr)]
      | none => []
    ⟨[rad], cpuOcclReleaseOps occlRay, aovs, [occlRay]⟩
  else
    match occlRay.sideData with
    | some sd =>
        let light := sd.light
        let emitted :=
          if light.clearRadiusFalloffDistance ≠ 0 ∧
             occlRay.mMaxT < light.clearRadius + light.clearRadiusFalloffDistance then
            let tr := getTransmittance occlRay
            [fillBundledRadiance
              { occlRay with
                mRadiance := calculateShadowFalloff light occlRay.mMaxT (tr * occlRay.mRadiance) }]
          else []
        let aovs :=
          [AovOp.visibilityAovsOccluded sd.numItems] ++
          (if fs.hasLpePrefixUnoccludedFlags then
            [AovOp.lightAovs sd.numItems sWhite none LpeFlag.lpeUnoccluded]
          else [])
        ⟨emitted, cpuOcclReleaseOps occlRay, aovs, [occlRay]⟩
    | none => ⟨[], cpuOcclReleaseOps occlRay, [], [occlRay]⟩

/-- One iteration of the loop of `forceSingleRaysUnoccluded`
(RayHandlers.cc:146-184): the radiance is unconditionally attenuated by the
volumetric transmittance and emitted; no occlusion test is issued. -/
def forceSingleRaysUnoccludedStep (occlRay : BundledOcclRay) : Effects :=
  let tr := getTransmittance occlRay
  let ray2 := { occlRay with mRadiance := occlRay.mRadiance * tr }
  let rad := fillBundledRadiance ray2
  let aovs :=
    match occlRay.sideData with
    | some sd => [AovOp.lightAovs sd.numItems tr none LpeFlag.lpeNone]
    | none => []
  ⟨[rad], cpuOcclReleaseOps occlRay, aovs, []⟩

/-- `areSingleRaysOccluded` over a batch: one step per entry, with the
accelerator answers given by the oracle `occl`. -/
def areSingleRaysOccludedBatch (fs : FrameState) (occl : BundledOcclRay → Bool)
    (entries : List BundledOcclRay) : Effects :=
  effConcat (entries.map fun r => areSingleRaysOccludedStep fs (occl r) r)

/-- `forceSingleRaysUnoccluded` over a batch. -/
def forceSingleRaysUnoccludedBatch (entries : List BundledOcclRay) : Effects :=
  effConcat (entries.map forceSingleRaysUnoccludedStep)

/-- One iteration of the loop of `computePresenceShadowsQueriesBundled`
(RayHandlers.cc:237-291), given the presence value that
`accumulateRayPresence` (a collaborator outside src/) accumulates for the ray.
The code dereferences `mDataPtrHandle` unconditionally ("we always have the
data block here"); a null handle is outside the function's contract and is
modelled as the empty effect.  The float comparison `isEqual(presence, 0.0f)`
is modelled as exact equality with 0. -/
def computePresenceShadowsStep (fs : FrameState) (presence : ℚ)
    (occlRay : BundledOcclRay) : Effects :=
  match occlRay.sideData with
  | none => Effects.empty
  | some sd =>
      let disableShadowing := !fs.enableShadowing
      let tr := getTransmittance occlRay
      let ray2 := { occlRay with mRadiance := occlRay.mRadiance * tr }
      let rad0 := fillBundledRadiance ray2
      let rad :=
        if presence = 0 ∨ disableShadowing then rad0
        else { rad0 with mRadiance := (1 - presence) • rad0.mRadiance }
      let occlusionValue := (1 - presence) • tr
      let aovs :=
        [AovOp.lightAovs sd.numItems sWhite (some occlusionValue) LpeFlag.lpeUnoccluded,
         AovOp.visibilityAovs sd.numItems (reduceTransparency occlusionValue)]
      ⟨[rad], [ReleaseOp.freeList, ReleaseOp.releaseCrypto occlRay.mCryptomatteDataHandle],
       aovs, []⟩

/-- `computePresenceShadowsQueriesBundled` over a batch, with the per-ray
presence values given by the oracle `pres`. -/
def computePresenceShadowsQueriesBundled (fs : FrameState) (pres : BundledOcclRay → ℚ)
    (entries : List BundledOcclRay) : Effects :=
  effConcat (entries.map fun r => computePresenceShadowsStep fs (pres r) r)

/-- One iteration of the result loop of `computeXPUOcclusionQueriesOnGPU`
(XPURayHandlers.cc:106-176), given the occlusion answer the GPU wrote into
`isOccluded[i]` for this ray.  (The batch-level GPU call and the
`threadsUsingGPU` counter around it are concurrency plumbing with no effect on
the per-ray decisions modelled here.) -/
def computeXPUOcclusionStep (fs : FrameState) (isOccluded : Bool)
    (occlRay : BundledOcclRay) : Effects :=
  let disableShadowing := !fs.enableShadowing
  if occlRay.mOcclTestType = OcclTestType.FORCE_NOT_OCCLUDED then
    -- See forceSingleRaysUnoccluded()
    let tr := getTransmittance occlRay
    let ray2 := { occlRay with mRadiance := occlRay.mRadiance * tr }
    let rad := fillBundledRadiance ray2
    let aovs :=
      match occlRay.sideData with
      | some sd => [AovOp.lightAovs sd.numItems tr none LpeFlag.lpeNone]
      | none => []
    ⟨[rad], gpuOcclReleaseOps occlRay, aovs, []⟩
  else if !isOccluded || disableShadowing then
    let tr := getTransmittance occlRay
    let ray2 := { occlRay with mRadiance := occlRay.mRadiance * tr }
    let rad := fillBundledRadiance ray2
    let aovs :=
      match occlRay.sideData with
      | some sd =>
          [AovOp.lightAovs sd.numItems sWhite (some tr) LpeFlag.lpeUnoccluded,
           AovOp.visibilityAovs sd.numItems (reduceTransparency tr)]
      | none => []
    ⟨[rad], gpuOcclReleaseOps occlRay, aovs, []⟩
  else
    match occlRay.sideData with
    | some sd =>
        let light := sd.light
        let emitted :=
          if light.clearRadiusFalloffDistance ≠ 0 ∧
             occlRay.mMaxT < light.clearRadius + light.clearRadiusFalloffDistance then
            let tr := getTransmittance occlRay
            [fillBundledRadiance
              { occlRay with
                mRadiance := calculateShadowFalloff light occlRay.mMaxT (tr * occlRay.mRadiance) }]
          else []
        let aovs :=
          [AovOp.visibilityAovsOccluded sd.numItems] ++
          (if fs.hasLpePrefixUnoccludedFlags then
            [AovOp.lightAovs sd.numItems sWhite none LpeFlag.lpeUnoccluded]
          else [])
        ⟨emitted, gpuOcclReleaseOps occlRay, aovs, []⟩
    | none => ⟨[], gpuOcclReleaseOps occlRay, [], []⟩

/-- `computeXPUOcclusionQueriesOnGPU` over a batch: the GPU fills one occlusion
answer per ray (oracle `occl`), then the result loop runs one step per ray. -/
def computeXPUOcclusionQueriesOnGPU (fs : FrameState) (occl : BundledOcclRay → Bool)
    (rays : List BundledOcclRay) : Effects :=
  effConcat (rays.map fun r => computeXPUOcclusionStep fs (occl r) r)

/-- The two-pointer in-place partition algorithm that libstdc++'s
`std::partition` runs for bidirectional iterators (RayHandlers.cc:201 calls
`std::partition`, which the C++ standard does not require to be stable, and
which this algorithm indeed does not implement stably).  One round strips the
maximal satisfying run from the left, finds the rightmost satisfying element,
swaps it with the leftmost unsatisfying one, and recurses on the strictly
shorter middle segment.  `fuel ≥ length` suffices for the recursion. -/
def partGo {α : Type} (pred : α → Bool) : ℕ → List α → List α
  | 0, l => l
  | fuel + 1, l =>
    let p := l.takeWhile pred
    match l.dropWhile pred with
    | [] => l
    | x :: rest =>
      let revRest := rest.reverse
      match revRest.dropWhile (fun e => !pred e) with
      | [] => l
      | y :: midRev =>
        let tailBad := revRest.takeWhile (fun e => !pred e)
        p ++ y :: partGo pred fuel midRev.reverse ++ x :: tailBad.reverse

/-- `std::partition pred` over a list, with enough fuel for the whole list. -/
def stdPartition {α : Type} (pred : α → Bool) (l : List α) : List α :=
  partGo pred l.length l

/-- The predicate passed to `std::partition` at RayHandlers.cc:201-202. -/
def isStandardTest (r : BundledOcclRay) : Bool :=
  r.mOcclTestType = OcclTestType.STANDARD

/-- `computeOcclusionQueriesBundled` (RayHandlers.cc:188-221): partition the
entries so STANDARD tests come first, run the accelerator-backed resolver on
the standard prefix and the no-op resolver on the rest. -/
def computeOcclusionQueriesBundled (fs : FrameState) (occl : BundledOcclRay → Bool)
    (entries : List BundledOcclRay) : Effects :=
  let part := stdPartition isStandardTest entries
  let stdEntries := part.takeWhile isStandardTest
  let noOpEntries := part.dropWhile isStandardTest
  Effects.append (areSingleRaysOccludedBatch fs occl stdEntries)
                 (forceSingleRaysUnoccludedBatch noOpEntries)

/-!  The ray bundle handler (`rayBundleHandler`, RayHandlers.cc:297-719). -/

/-- A material, restricted to its bundled id.  `getMaterialId` is wrapped in
`MNRY_VERIFY` at RayHandlers.cc:436, i.e. the code asserts the id is non-zero;
material substitution (`raySwitch`) happens before the id is taken, so the
field models the post-switch material. -/
structure Material where
  materialId : ℕ
deriving DecidableEq

/-- The outcome the scene oracle reports when a primary miss ray is tested
against the visible lights (`intersectVisibleLight` plus the subsequent
`hitLight->eval` call, both collaborators outside src/): the light hit, how
many lights could have produced an equivalent hit, and the evaluated
radiance. -/
structure VisibleLightHit where
  light : Light
  numHits : ℕ
  evalRadiance : Color
deriving DecidableEq

/-- The path-vertex attributes the handler reads. -/
structure PathVertex where
  pathThroughput : Color
  pathPixelWeight : ℚ
  lpeStateId : ℤ
  lpeStateIdLight : ℤ
deriving DecidableEq

/-- One in-flight RayState after the intersection and volume passes
(RayHandlers.cc:322-357): `geomHit` models `ray.geomID != -1`, `material` the
result of `getIntersectionMaterial` + `raySwitch` (none ⇔ no material assigned
to the hit), and the `vol*` fields the scratch volumetric results. -/
structure RayState where
  rsIdx : ℕ
  depth : ℕ
  geomHit : Bool
  geomID : ℕ
  primID : ℕ
  material : Option Material
  pv : PathVertex
  volHit : Bool
  volRad : Color
  volTr : Color
  volTh : Color
  volTalpha : Color
  volumeSurfaceT : ℚ
  pixel : ℕ
  subpixelIndex : ℕ
  deepDataHandle : ℕ
  cryptoDataHandle : ℕ
deriving DecidableEq

/-- Stand-in for scene_rdl2::math::sMaxValue (the sentinel volumeSurfaceT is
initialized to); 2^128, written as a numeral so the kernel can evaluate
comparisons against it. -/
def sMaxValue : ℚ := 340282366920938463463374607431768211456

/-- A transient sort entry (RayHandlers.cc:370-375).  `rsRef` models the ray
state that `baseRayState[mRsIdx]` dereferences to. -/
structure SortedEntry where
  mSortKey : ℕ
  mRsIdx : ℕ
  mMaterial : Option Material
  rsRef : RayState
deriving DecidableEq

/-- The per-ray output of the classification loop (RayHandlers.cc:387-472):
at most one sort entry, at most one ray state queued for bulk free, at most
one directly-emitted radiance (null-material volume hits), and the
miss-visibility accounting calls. -/
structure Phase1Out where
  sorted : List SortedEntry
  toFree : List ℕ
  radiances : List BundledRadiance
  aovs : List AovOp
deriving DecidableEq

/-- One iteration of the classification loop (RayHandlers.cc:387-472). -/
def phase1Step (fs : FrameState) (rs : RayState) : Phase1Out :=
  if rs.geomHit = false then
    -- We didn't hit anything: sort key 0, and for primary rays with a
    -- non-empty AOV schema, the visibility-attempts accounting call.
    { sorted := [⟨0, rs.rsIdx, none, rs⟩]
      toFree := []
      radiances := []
      aovs :=
        if rs.depth = 0 ∧ fs.aovSchemaEmpty = false then
          [AovOp.visibilityAttempts (fs.lightSampleCount * fs.lightCount) rs.pixel]
        else [] }
  else
    match rs.material with
    | some m =>
        { sorted := [⟨m.materialId, rs.rsIdx, some m, rs⟩]
          toFree := [], radiances := [], aovs := [] }
    | none =>
        -- No material assigned: skip the entry and free the RayState; a
        -- volume hit still contributes a radiance entry directly.
        { sorted := []
          toFree := [rs.rsIdx]
          radiances :=
            if rs.volHit then
              [{ mRadiance := rs.volRad
                 mAlpha :=
                   if rs.depth = 0 then
                     rs.pv.pathPixelWeight * (1 - reduceTransparency rs.volTalpha)
                   else 0
                 mPathPixelWeight := rs.pv.pathPixelWeight
                 mPixel := rs.pixel
                 mSubPixelIndex := rs.subpixelIndex
                 mDeepDataHandle := rs.deepDataHandle
                 mCryptomatteDataHandle := rs.cryptoDataHandle }]
            else []
          aovs := [] }

/-- RAY_HANDLER_STD_SORT_CUTOFF (RayHandlers.cc:29). -/
def RAY_HANDLER_STD_SORT_CUTOFF : ℕ := 200

/-- Bucket concatenation: for each key value below `n`, in ascending order,
the entries carrying that key. -/
def bucketAux (n : ℕ) (l : List SortedEntry) : List SortedEntry :=
  (List.range n).flatMap fun k => l.filter fun e => e.mSortKey = k

/-- Modelled from the spec: the bucket path of `scene_rdl2::util::smartSort32`
(scene_rdl2, not under src/) — a bounded-range sort ascending by key, emitting,
for each key value from 0 to `maxKey`, the entries carrying that key. -/
def bucketSortByKey (maxKey : ℕ) (l : List SortedEntry) : List SortedEntry :=
  bucketAux (maxKey + 1) l

/-- Modelled from the spec: the comparison-sort fallback of `smartSort32`
(std::sort ascending by key; tie order is unspecified by the C++ standard,
modelled here with a merge sort — the claims compared against it are
tie-order-independent). -/
def cmpSortByKey (l : List SortedEntry) : List SortedEntry :=
  l.mergeSort fun a b => a.mSortKey ≤ b.mSortKey

/-- Modelled from the spec: `scene_rdl2::util::smartSort32` — bucket sort
bounded by the maximum observed key below the cutoff, comparison sort
otherwise. -/
def smartSort32 (cutoff maxKey : ℕ) (l : List SortedEntry) : List SortedEntry :=
  if l.length < cutoff then bucketSortByKey maxKey l else cmpSortByKey l

/-- The surviving sort entries of the classification loop over a batch. -/
def sortedEntriesOf (fs : FrameState) (rays : List RayState) : List SortedEntry :=
  (rays.map (phase1Step fs)).flatMap Phase1Out.sorted

/-- The running `maxSortKey` of RayHandlers.cc:378/439 (misses contribute 0). -/
def handlerMaxKey (fs : FrameState) (rays : List RayState) : ℕ :=
  ((sortedEntriesOf fs rays).map SortedEntry.mSortKey).foldr max 0

/-- The batch's entries after the `smartSort32` call (RayHandlers.cc:475-477). -/
def handlerSorted (fs : FrameState) (rays : List RayState) : List SortedEntry :=
  smartSort32 RAY_HANDLER_STD_SORT_CUTOFF (handlerMaxKey fs rays) (sortedEntriesOf fs rays)

/-- One miss-run retirement (the loop body at RayHandlers.cc:513-663), given
the visible-light lookup outcome for this ray (only consulted when the ray is
primary).  Returns the emitted BundledRadiance and the AOV calls.

Two C++ declarations in this loop body shadow outer variables:
* RayHandlers.cc:527 declares `const Light *hitLight = nullptr;` and
  RayHandlers.cc:532 re-declares `const Light *hitLight;` inside the
  `depth == 0` block, so the lookup result is bound to the inner variable and
  the outer one stays null for the rest of the iteration;
* RayHandlers.cc:636 declares `int lpeStateId = -1;` and RayHandlers.cc:640
  re-declares `int lpeStateId` inside the case-1 branch, so the
  light-event-transitioned value is discarded with the inner scope.
The model reproduces both faithfully: the radiance/alpha computation uses the
(inner) lookup result, while the LPE accumulation at the bottom sees
`hitLight = none` and hence `lpeStateId = -1` whenever `depth = 0`. -/
def missRetireStep (fs : FrameState) (lookup : Option VisibleLightHit)
    (rs : RayState) : BundledRadiance × List AovOp :=
  let res : Color × ℚ :=
    if rs.depth = 0 then
      match lookup with
      | some hl =>
          let radiance0 := (hl.numHits : ℚ) • (rs.pv.pathThroughput * hl.evalRadiance)
          let radiance :=
            if rs.volHit then radiance0 * (rs.volTr * rs.volTh) else radiance0
          let alpha :=
            if hl.light.isOpaqueInAlpha then rs.pv.pathPixelWeight
            else if rs.volHit then
              rs.pv.pathPixelWeight * (1 - reduceTransparency rs.volTalpha)
            else 0
          (radiance, alpha)
      | none =>
          (sBlack,
           if rs.volHit then
             rs.pv.pathPixelWeight * (1 - reduceTransparency rs.volTalpha)
           else 0)
    else (sBlack, 0)
  -- add in any volume radiance
  let radiance := res.1 + rs.volRad
  let rad : BundledRadiance :=
    { mRadiance := radiance
      mAlpha := res.2
      mPathPixelWeight := rs.pv.pathPixelWeight
      mPixel := rs.pixel
      mSubPixelIndex := rs.subpixelIndex
      mDeepDataHandle := rs.deepDataHandle
      mCryptomatteDataHandle := rs.cryptoDataHandle }
  let aovs : List AovOp :=
    if fs.aovSchemaEmpty then []
    else
      [AovOp.backgroundExtra rs.pixel rs.subpixelIndex] ++
      (if rs.depth = 0 ∧ rs.volHit = true ∧ rs.volumeSurfaceT < sMaxValue then
        [AovOp.stateVarsVolumeOnly rs.pixel]
      else []) ++
      (let lpeStateId : ℤ :=
        if rs.depth = 0 then
          -- The outer `hitLight` is still null here (RayHandlers.cc:527/532
          -- shadowing), so the case-1 body never runs; and even when it would,
          -- the transitioned id is bound to the shadowing inner `lpeStateId`
          -- (RayHandlers.cc:636/640), so the outer one keeps -1.
          (-1 : ℤ)
        else rs.pv.lpeStateIdLight
       if 0 ≤ lpeStateId then [AovOp.lightAovsBundled radiance lpeStateId rs.pixel]
       else [])
  (rad, aovs)

/-- The lpe-state selection the comments around RayHandlers.cc:624-649
describe (and that the shadowed declarations were evidently meant to
implement): for a primary ray that hit a light, transition the path vertex's
`lpeStateId` by the hit-light event; otherwise use `lpeStateIdLight`.
`lightEventTransition` stands for `LightAovs::lightEventTransition`. -/
def missLpeStateIdIntended (lightEventTransition : ℤ → Light → ℤ)
    (lookup : Option VisibleLightHit) (rs : RayState) : ℤ :=
  if rs.depth = 0 then
    match lookup with
    | some hl =>
        if 0 ≤ rs.pv.lpeStateId then lightEventTransition rs.pv.lpeStateId hl.light
        else rs.pv.lpeStateId
    | none => -1
  else rs.pv.lpeStateIdLight

/-- One shade-queue entry (shading::SortedRayState), with the secondary
geometry/primitive locality key of RayHandlers.cc:705. -/
structure ShadeEntry where
  mRsIdx : ℕ
  mSortKey : ℕ
deriving DecidableEq

/-- The secondary locality sort key: `((geomID & 0xfff) << 20) | (primID & 0xfffff)`. -/
def shadeSortKey (rs : RayState) : ℕ :=
  (rs.geomID % 2 ^ 12) * 2 ^ 20 + rs.primID % 2 ^ 20

/-- Split a list into maximal runs of equal sort key, as the submission loop
at RayHandlers.cc:683-718 does.  Fuel-driven; `fuel ≥ length` suffices, and
the concatenation of the runs is the input list for every fuel. -/
def chunkRunsF : ℕ → List SortedEntry → List (List SortedEntry)
  | _, [] => []
  | 0, l => [l]
  | fuel + 1, e :: rest =>
      (e :: rest.takeWhile fun x => x.mSortKey = e.mSortKey) ::
        chunkRunsF fuel (rest.dropWhile fun x => x.mSortKey = e.mSortKey)

/-- Maximal equal-key runs of a list. -/
def chunkRuns (l : List SortedEntry) : List (List SortedEntry) :=
  chunkRunsF l.length l

/-- The observable output of one `rayBundleHandler` batch. -/
structure HandlerOut where
  /-- rsIdx values passed to the bulk `freeRayStates` call, in order. -/
  freed : List ℕ
  /-- per-material shade-queue submissions: (material id, entries). -/
  shadeBatches : List (ℕ × List ShadeEntry)
  /-- radiances pushed to the radiance queue. -/
  radiances : List BundledRadiance
  aovs : List AovOp
deriving DecidableEq

/-- `rayBundleHandler` (RayHandlers.cc:297-719) after the intersection and
volume passes, on the no-cancellation path: classify each ray (miss /
null-material / material hit), sort the surviving entries by material key with
`smartSort32`, retire the leading key-0 miss run, bulk-free the collected ray
states, and submit one shade batch per maximal material run.  `lookup` is the
visible-light oracle used by the miss run. -/
def rayBundleHandlerModel (fs : FrameState) (lookup : RayState → Option VisibleLightHit)
    (rays : List RayState) : HandlerOut :=
  let p1 := rays.map (phase1Step fs)
  let sorted := handlerSorted fs rays
  -- The miss run: the leading span of sort key 0 (RayHandlers.cc:498-505).
  let missRun := sorted.takeWhile fun e => e.mSortKey = 0
  let missOut := missRun.map fun e => missRetireStep fs (lookup e.rsRef) e.rsRef
  let freed := p1.flatMap Phase1Out.toFree ++ missRun.map fun e => e.rsRef.rsIdx
  -- Remaining entries, routed to shade queues one maximal material run at a
  -- time (RayHandlers.cc:682-718).
  let remaining := sorted.dropWhile fun e => e.mSortKey = 0
  let shadeBatches := (chunkRuns remaining).map fun run =>
    (match run with | [] => 0 | e :: _ => e.mSortKey,
     run.map fun e => ShadeEntry.mk e.mRsIdx (shadeSortKey e.rsRef))
  { freed := freed
    shadeBatches := shadeBatches
    radiances := p1.flatMap Phase1Out.radiances ++ missOut.map Prod.fst
    aovs := p1.flatMap Phase1Out.aovs ++ missOut.flatMap Prod.snd }

/-- All ray-state indices a handler output forwards to shade queues. -/
def forwardedIds (out : HandlerOut) : List ℕ :=
  out.shadeBatches.flatMap fun b => b.2.map ShadeEntry.mRsIdx

/-- Discriminator: is this release op a cryptomatte release? -/
def ReleaseOp.isCrypto : ReleaseOp → Bool
  | ReleaseOp.releaseCrypto _ => true
  | _ => false

/-- Discriminator: is this AOV op the bundled light-AOV accumulation of the
miss handler (`aovAccumLightAovsBundled`, RayHandlers.cc:655)? -/
def AovOp.isLightAovsBundled : AovOp → Bool
  | AovOp.lightAovsBundled _ _ _ => true
  | _ => false

/-!  Concrete inputs used by witnesses and counterexamples. -/

/-- A frame state with shadowing enabled and a non-empty AOV schema. -/
def fsDemo : FrameState :=
  { enableShadowing := true, hasLpePrefixUnoccludedFlags := false,
    aovSchemaEmpty := false, lightSampleCount := 2, lightCount := 3,
    maxPresenceDepth := 4 }

/-- A light with a clear-radius falloff band [1, 3]. -/
def lightDemo : Light :=
  { clearRadius := 1, clearRadiusFalloffDistance := 2, isOpaqueInAlpha := false }

def sdDemo : SideData := { light := lightDemo, rayEpsilon := 0, numItems := 2 }

/-- A STANDARD occlusion ray with side data, deep handle 3, crypto handle 7,
unit transmittance, whose max distance 2 lies inside the falloff band. -/
def occlRayDemo : BundledOcclRay :=
  { mRadiance := ⟨10, 20, 30⟩, mMinT := 0, mMaxT := 2,
    mOcclTestType := OcclTestType.STANDARD, sideData := some sdDemo,
    mDeepDataHandle := 3, mCryptomatteDataHandle := 7, tr := ⟨1, 1, 1⟩,
    mPathPixelWeight := 1, mPixel := 5, mSubPixelIndex := 0 }

/-- A STANDARD occlusion ray with a null side-data handle. -/
def occlRayNoData : BundledOcclRay :=
  { occlRayDemo with sideData := none, mDeepDataHandle := 4, mCryptomatteDataHandle := 9 }

/-- A presence-shadow ray with deep handle 5. -/
def presRayDemo : BundledOcclRay := { occlRayDemo with mDeepDataHandle := 5 }

/-- A FORCE_NOT_OCCLUDED ray. -/
def forceRayDemo (i : ℕ) : BundledOcclRay :=
  { occlRayDemo with mOcclTestType := OcclTestType.FORCE_NOT_OCCLUDED, mPixel := 100 + i }

/-- A STANDARD ray tagged by pixel, for order-sensitive partition inputs. -/
def stdRayDemo (i : ℕ) : BundledOcclRay := { occlRayDemo with mPixel := i }

def pvDemo : PathVertex :=
  { pathThroughput := ⟨1, 1, 1⟩, pathPixelWeight := 1, lpeStateId := 5, lpeStateIdLight := 6 }

/-- A primary miss ray state (no geometry hit, no volume). -/
def baseRsDemo : RayState :=
  { rsIdx := 0, depth := 0, geomHit := false, geomID := 0, primID := 0,
    material := none, pv := pvDemo, volHit := false, volRad := sBlack,
    volTr := sWhite, volTh := sWhite, volTalpha := sWhite,
    volumeSurfaceT := sMaxValue, pixel := 0, subpixelIndex := 0,
    deepDataHandle := 0, cryptoDataHandle := 0 }

def mkMissDemo (i : ℕ) : RayState := { baseRsDemo with rsIdx := i, pixel := i }

def mkHitDemo (i matId : ℕ) : RayState :=
  { baseRsDemo with
      rsIdx := i, geomHit := true, material := some ⟨matId⟩,
      geomID := i, primID := i, pixel := i }

/-- A hit with no material assigned, carrying volume radiance. -/
def mkNullMatDemo (i : ℕ) : RayState :=
  { baseRsDemo with
      rsIdx := i, geomHit := true, material := none,
      volHit := true, volRad := ⟨1, 2, 3⟩, volTalpha := sBlack, pixel := i }

/-- A batch whose classification produces the sort keys [0,0,3,1,0,3,1] of the
spec's sorting scenario. -/
def raysDemo : List RayState :=
  [mkMissDemo 0, mkMissDemo 1, mkHitDemo 2 3, mkHitDemo 3 1,
   mkMissDemo 4, mkHitDemo 5 3, mkHitDemo 6 1]

/-- The sorting-scenario batch plus a null-material volume hit. -/
def raysDemoC1 : List RayState := raysDemo ++ [mkNullMatDemo 7]

/-- A secondary (depth 1) miss ray that traversed a volume with zero alpha
transmittance. -/
def rsDepth1VolDemo : RayState :=
  { baseRsDemo with rsIdx := 9, depth := 1, volHit := true, volTalpha := sBlack }

/-- A visible-light hit outcome for the miss handler. -/
def vlhDemo : VisibleLightHit :=
  { light := lightDemo, numHits := 2, evalRadiance := ⟨1, 0, 0⟩ }

/-- A visible-light hit on a light that is opaque in alpha. -/
def vlhOpaqueDemo : VisibleLightHit :=
  { light := { lightDemo with isOpaqueInAlpha := true }, numHits := 1,
    evalRadiance := ⟨1, 0, 0⟩ }

/-- The ray-state indices of a batch, in submission order. -/
def rayIds (rays : List RayState) : List ℕ := rays.map RayState.rsIdx

/-!  ## Lemmas -/

@[simp] theorem mul_color_def (a b : Color) :
    a * b = ⟨a.r * b.r, a.g * b.g, a.b * b.b⟩ := rfl

@[simp] theorem add_color_def (a b : Color) :
    a + b = ⟨a.r + b.r, a.g + b.g, a.b + b.b⟩ := rfl

@[simp] theorem smul_color_def (s : ℚ) (c : Color) :
    s • c = ⟨s * c.r, s * c.g, s * c.b⟩ := rfl

@[simp] theorem effAppend_radiances (a b : Effects) :
    (Effects.append a b).radiances = a.radiances ++ b.radiances := rfl

@[simp] theorem effAppend_releases (a b : Effects) :
    (Effects.append a b).releases = a.releases ++ b.releases := rfl

@[simp] theorem effAppend_aovs (a b : Effects) :
    (Effects.append a b).aovs = a.aovs ++ b.aovs := rfl

@[simp] theorem effAppend_occlTests (a b : Effects) :
    (Effects.append a b).occlTests = a.occlTests ++ b.occlTests := rfl

@[simp] theorem effConcat_nil : effConcat [] = Effects.empty := rfl

@[simp] theorem effConcat_cons (e : Effects) (l : List Effects) :
    effConcat (e :: l) = Effects.append e (effConcat l) := rfl

@[simp] theorem effConcat_radiances (l : List Effects) :
    (effConcat l).radiances = l.flatMap Effects.radiances := by
  induction l with
  | nil => rfl
  | cons e t ih => simp [ih]

@[simp] theorem effConcat_releases (l : List Effects) :
    (effConcat l).releases = l.flatMap Effects.releases := by
  induction l with
  | nil => rfl
  | cons e t ih => simp [ih]

@[simp] theorem effConcat_aovs (l : List Effects) :
    (effConcat l).aovs = l.flatMap Effects.aovs := by
  induction l with
  | nil => rfl
  | cons e t ih => simp [ih]

@[simp] theorem effConcat_occlTests (l : List Effects) :
    (effConcat l).occlTests = l.flatMap Effects.occlTests := by
  induction l with
  | nil => rfl
  | cons e t ih => simp [ih]

/-- Every branch of the CPU standard-occlusion loop body executes the same
release sequence. -/
theorem areSingleRaysOccludedStep_releases (fs : FrameState) (o : Bool)
    (r : BundledOcclRay) :
    (areSingleRaysOccludedStep fs o r).releases = cpuOcclReleaseOps r := by
  unfold areSingleRaysOccludedStep
  cases hc : (!o || !fs.enableShadowing) <;> cases hr : r.sideData <;> simp [hc, hr]

theorem forceSingleRaysUnoccludedStep_releases (r : BundledOcclRay) :
    (forceSingleRaysUnoccludedStep r).releases = cpuOcclReleaseOps r := rfl

/-- Every branch of the GPU result loop body executes the same release
sequence. -/
theorem computeXPUOcclusionStep_releases (fs : FrameState) (o : Bool)
    (r : BundledOcclRay) :
    (computeXPUOcclusionStep fs o r).releases = gpuOcclReleaseOps r := by
  unfold computeXPUOcclusionStep
  cases ht : r.mOcclTestType <;> cases hc : (!o || !fs.enableShadowing) <;>
    cases hr : r.sideData <;> simp [ht, hc, hr]

/-- **C2** (amended).  Per-ray handle bookkeeping on every branch of the three
resolvers.  For a ray with a non-null side-data handle: the CPU occlusion
resolver and the no-op resolver free the side-data list once and release the
deep and cryptomatte handles once each; the presence resolver frees the
side-data list once and releases the cryptomatte handle once, but performs no
deep-data release; the GPU resolver frees the side-data list once and releases
the deep handle once, but performs no cryptomatte release.  For a ray with a
null side-data handle, no side-data free is issued and the other releases of
the path still happen exactly once. -/
theorem C2_handle_release_discipline (fs : FrameState) (isOcc : Bool) (p : ℚ)
    (r r2 : BundledOcclRay) (hsd : r.sideData.isSome = true)
    (h2 : r2.sideData = none) :
    ((areSingleRaysOccludedStep fs isOcc r).releases =
       [ReleaseOp.freeList, ReleaseOp.releaseDeep r.mDeepDataHandle,
        ReleaseOp.releaseCrypto r.mCryptomatteDataHandle])
  ∧ ((forceSingleRaysUnoccludedStep r).releases =
       [ReleaseOp.freeList, ReleaseOp.releaseDeep r.mDeepDataHandle,
        ReleaseOp.releaseCrypto r.mCryptomatteDataHandle])
  ∧ ((computePresenceShadowsStep fs p r).releases =
       [ReleaseOp.freeList, ReleaseOp.releaseCrypto r.mCryptomatteDataHandle])
  ∧ ((computeXPUOcclusionStep fs isOcc r).releases =
       [ReleaseOp.freeList, ReleaseOp.releaseDeep r.mDeepDataHandle])
  ∧ ((areSingleRaysOccludedStep fs isOcc r2).releases =
       [ReleaseOp.releaseDeep r2.mDeepDataHandle,
        ReleaseOp.releaseCrypto r2.mCryptomatteDataHandle])
  ∧ ((computeXPUOcclusionStep fs isOcc r2).releases =
       [ReleaseOp.releaseDeep r2.mDeepDataHandle]) := by
  obtain ⟨sd, hsome⟩ := Option.isSome_iff_exists.mp hsd
  refine ⟨?_, ?_, ?_, ?_, ?_, ?_⟩
  · rw [areSingleRaysOccludedStep_releases]
    simp [cpuOcclReleaseOps, hsome]
  · rw [forceSingleRaysUnoccludedStep_releases]
    simp [cpuOcclReleaseOps, hsome]
  · unfold computePresenceShadowsStep
    rw [hsome]
  · rw [computeXPUOcclusionStep_releases]
    simp [gpuOcclReleaseOps, hsome]
  · rw [areSingleRaysOccludedStep_releases]
    simp [cpuOcclReleaseOps, h2]
  · rw [computeXPUOcclusionStep_releases]
    simp [gpuOcclReleaseOps, h2]

/-- **C2** witness: the amended theorem instantiated at a concrete ray with
side data (deep handle 3, crypto handle 7) and a concrete ray without. -/
theorem C2_handle_release_discipline_witness :
    (computePresenceShadowsStep fsDemo (1 / 2) occlRayDemo).releases =
      [ReleaseOp.freeList, ReleaseOp.releaseCrypto 7] ∧
    (computeXPUOcclusionStep fsDemo true occlRayDemo).releases =
      [ReleaseOp.freeList, ReleaseOp.releaseDeep 3] :=
  have h := C2_handle_release_discipline fsDemo true (1 / 2) occlRayDemo
    occlRayNoData rfl rfl
  ⟨h.2.2.1, h.2.2.2.1⟩

/-- **C2** counterexample to the claim as stated: processing a STANDARD ray
with cryptomatte handle 7 through the GPU resolver releases that handle zero
times, not once; and processing a ray with deep handle 5 through the presence
resolver releases the deep handle zero times, not once. -/
theorem C2_counterexample :
    (computeXPUOcclusionStep fsDemo true occlRayDemo).releases.count
        (ReleaseOp.releaseCrypto 7) ≠ 1
  ∧ (computePresenceShadowsStep fsDemo (1 / 2) presRayDemo).releases.count
        (ReleaseOp.releaseDeep 5) ≠ 1 := by decide

/-- Branch-by-branch parity of the GPU and CPU per-ray step functions on
STANDARD rays: identical radiances, identical AOV calls, and identical
releases once cryptomatte releases are set aside. -/
theorem gpu_cpu_step_parity (fs : FrameState) (o : Bool) (r : BundledOcclRay)
    (h : r.mOcclTestType = OcclTestType.STANDARD) :
    (computeXPUOcclusionStep fs o r).radiances =
      (areSingleRaysOccludedStep fs o r).radiances
  ∧ (computeXPUOcclusionStep fs o r).aovs = (areSingleRaysOccludedStep fs o r).aovs
  ∧ (computeXPUOcclusionStep fs o r).releases.filter (fun x => !x.isCrypto) =
      (areSingleRaysOccludedStep fs o r).releases.filter (fun x => !x.isCrypto) := by
  refine ⟨?_, ?_, ?_⟩
  · unfold computeXPUOcclusionStep areSingleRaysOccludedStep
    cases hc : (!o || !fs.enableShadowing) <;> cases hr : r.sideData <;>
      simp [h, hc, hr]
  · unfold computeXPUOcclusionStep areSingleRaysOccludedStep
    cases hc : (!o || !fs.enableShadowing) <;> cases hr : r.sideData <;>
      simp [h, hc, hr]
  · rw [computeXPUOcclusionStep_releases, areSingleRaysOccludedStep_releases]
    cases hr : r.sideData <;>
      simp [cpuOcclReleaseOps, gpuOcclReleaseOps, hr, ReleaseOp.isCrypto]

/-- **C3** (amended).  For a batch of STANDARD occlusion rays with identical
per-ray accelerator answers, the GPU result loop and the CPU resolver make the
same decisions: the same BundledRadiance sequence (same emitting rays, same
transmittance-attenuated and falloff-weighted values), the same AOV/LPE
accounting calls, and the same side-data frees and deep-data releases.  (The
handle-release discipline is *not* fully identical: the CPU path additionally
releases each ray's cryptomatte handle, the GPU path does not — see the
counterexample.) -/
theorem C3_gpu_cpu_occlusion_parity (fs : FrameState) (occl : BundledOcclRay → Bool)
    (entries : List BundledOcclRay)
    (hstd : ∀ r ∈ entries, r.mOcclTestType = OcclTestType.STANDARD) :
    (computeXPUOcclusionQueriesOnGPU fs occl entries).radiances =
      (areSingleRaysOccludedBatch fs occl entries).radiances
  ∧ (computeXPUOcclusionQueriesOnGPU fs occl entries).aovs =
      (areSingleRaysOccludedBatch fs occl entries).aovs
  ∧ (computeXPUOcclusionQueriesOnGPU fs occl entries).releases.filter (fun x => !x.isCrypto) =
      (areSingleRaysOccludedBatch fs occl entries).releases.filter (fun x => !x.isCrypto) := by
  induction entries with
  | nil => exact ⟨rfl, rfl, rfl⟩
  | cons a t ih =>
    have ha := hstd a (List.mem_cons_self a t)
    obtain ⟨ih1, ih2, ih3⟩ := ih fun r hr => hstd r (List.mem_cons_of_mem a hr)
    obtain ⟨p1, p2, p3⟩ := gpu_cpu_step_parity fs (occl a) a ha
    refine ⟨?_, ?_, ?_⟩ <;>
      simp [computeXPUOcclusionQueriesOnGPU, areSingleRaysOccludedBatch,
            List.filter_append, *] at ih1 ih2 ih3 ⊢ <;>
      simp [*]

/-- **C3** witness: parity instantiated on a concrete singleton STANDARD
batch. -/
theorem C3_gpu_cpu_occlusion_parity_witness :
    (computeXPUOcclusionQueriesOnGPU fsDemo (fun _ => true) [occlRayDemo]).radiances =
      (areSingleRaysOccludedBatch fsDemo (fun _ => true) [occlRayDemo]).radiances :=
  (C3_gpu_cpu_occlusion_parity fsDemo (fun _ => true) [occlRayDemo]
    (by intro r hr; simp at hr; subst hr; rfl)).1

/-- **C3** counterexample to the claim as stated: the handle-release
discipline of the two back ends differs on the same STANDARD ray — the CPU
resolver releases the cryptomatte handle, the GPU loop does not. -/
theorem C3_counterexample :
    (computeXPUOcclusionStep fsDemo true occlRayDemo).releases ≠
      (areSingleRaysOccludedStep fsDemo true occlRayDemo).releases := by decide

/-- **C6** (confirmed).  Every presence-shadow ray emits exactly one
BundledRadiance: the radiance is attenuated by the volumetric transmittance,
and additionally scaled by (1 − presence) exactly when presence is non-zero
and shadowing is enabled; the "unoccluded" AOV accounting value is
(1 − presence) · tr regardless of blockage. -/
theorem C6_presence_shadow_radiance (fs : FrameState) (p : ℚ) (r : BundledOcclRay)
    (sd : SideData) (hsd : r.sideData = some sd) :
    (computePresenceShadowsStep fs p r).radiances.length = 1
  ∧ (p ≠ 0 → fs.enableShadowing = true →
      (computePresenceShadowsStep fs p r).radiances =
        [{ fillBundledRadiance r with mRadiance := (1 - p) • (r.mRadiance * r.tr) }])
  ∧ (p = 0 ∨ fs.enableShadowing = false →
      (computePresenceShadowsStep fs p r).radiances =
        [{ fillBundledRadiance r with mRadiance := r.mRadiance * r.tr }])
  ∧ AovOp.lightAovs sd.numItems sWhite (some ((1 - p) • r.tr)) LpeFlag.lpeUnoccluded ∈
      (computePresenceShadowsStep fs p r).aovs := by
  unfold computePresenceShadowsStep
  rw [hsd]
  dsimp only
  refine ⟨?_, ?_, ?_, ?_⟩
  · rfl
  · intro hp hs
    simp [hp, hs, getTransmittance, fillBundledRadiance]
  · intro hor
    rcases hor with h | h <;> simp [h, getTransmittance, fillBundledRadiance]
  · simp [getTransmittance]

/-- **C6** witness: the spec's concrete scenario — transmittance (1,1,1) and
presence 0.4 yield 0.6 × the original radiance, and the AOV value is
0.6 × tr. -/
theorem C6_presence_shadow_radiance_witness :
    (computePresenceShadowsStep fsDemo (2 / 5) occlRayDemo).radiances =
      [{ fillBundledRadiance occlRayDemo with mRadiance := ⟨6, 12, 18⟩ }]
  ∧ AovOp.lightAovs 2 sWhite (some ⟨3 / 5, 3 / 5, 3 / 5⟩) LpeFlag.lpeUnoccluded ∈
      (computePresenceShadowsStep fsDemo (2 / 5) occlRayDemo).aovs := by
  have h := C6_presence_shadow_radiance fsDemo (2 / 5) occlRayDemo sdDemo rfl
  have hval : ((1 : ℚ) - 2 / 5) • (occlRayDemo.mRadiance * occlRayDemo.tr) =
      (⟨6, 12, 18⟩ : Color) := by
    simp [occlRayDemo]
    norm_num
  have htr : ((1 : ℚ) - 2 / 5) • occlRayDemo.tr = (⟨3 / 5, 3 / 5, 3 / 5⟩ : Color) := by
    simp [occlRayDemo]
    norm_num
  have h4 := h.2.2.2
  rw [htr] at h4
  exact ⟨by rw [h.2.1 (by norm_num) rfl, hval], h4⟩

/-- The falloff weight is positive strictly inside the falloff band, so the
weighted contribution of a positive radiance is non-zero. -/
theorem calculateShadowFalloff_ne_black (light : Light) (d : ℚ) (c : Color)
    (hfd : 0 < light.clearRadiusFalloffDistance)
    (hd : d < light.clearRadius + light.clearRadiusFalloffDistance)
    (hc : c.allPos) : calculateShadowFalloff light d c ≠ sBlack := by
  intro heq
  have hw : 0 < (if d ≤ light.clearRadius then (1 : ℚ)
      else (light.clearRadius + light.clearRadiusFalloffDistance - d) /
           light.clearRadiusFalloffDistance) := by
    split
    · norm_num
    · exact div_pos (by linarith) hfd
  have hpos : 0 < (calculateShadowFalloff light d c).r := mul_pos hw hc.1
  rw [heq] at hpos
  exact absurd hpos (by simp [sBlack])

/-- **C7** (confirmed).  For a STANDARD ray the accelerator reports occluded
(with shadowing enabled and a non-null side-data handle), on both the CPU and
the GPU paths: inside the clear-radius falloff band exactly one
falloff-weighted, transmittance-attenuated BundledRadiance is still emitted
(non-zero whenever the weighted input is positive), outside the band no
radiance is emitted, and the occluded-visibility AOV accounting is recorded in
both cases. -/
theorem C7_clear_radius_falloff (fs : FrameState) (r : BundledOcclRay) (sd : SideData)
    (hsd : r.sideData = some sd) (hshadow : fs.enableShadowing = true)
    (hstd : r.mOcclTestType = OcclTestType.STANDARD) :
    ((sd.light.clearRadiusFalloffDistance ≠ 0 ∧
        r.mMaxT < sd.light.clearRadius + sd.light.clearRadiusFalloffDistance) →
      (areSingleRaysOccludedStep fs true r).radiances =
        [fillBundledRadiance
          { r with
              mRadiance := calculateShadowFalloff sd.light r.mMaxT (r.tr * r.mRadiance) }] ∧
      (computeXPUOcclusionStep fs true r).radiances =
        [fillBundledRadiance
          { r with
              mRadiance := calculateShadowFalloff sd.light r.mMaxT (r.tr * r.mRadiance) }])
  ∧ (¬(sd.light.clearRadiusFalloffDistance ≠ 0 ∧
        r.mMaxT < sd.light.clearRadius + sd.light.clearRadiusFalloffDistance) →
      (areSingleRaysOccludedStep fs true r).radiances = [] ∧
      (computeXPUOcclusionStep fs true r).radiances = [])
  ∧ AovOp.visibilityAovsOccluded sd.numItems ∈ (areSingleRaysOccludedStep fs true r).aovs
  ∧ AovOp.visibilityAovsOccluded sd.numItems ∈ (computeXPUOcclusionStep fs true r).aovs
  ∧ (0 < sd.light.clearRadiusFalloffDistance →
     r.mMaxT < sd.light.clearRadius + sd.light.clearRadiusFalloffDistance →
     (r.tr * r.mRadiance).allPos →
     calculateShadowFalloff sd.light r.mMaxT (r.tr * r.mRadiance) ≠ sBlack) := by
  refine ⟨?_, ?_, ?_, ?_, ?_⟩
  · intro hcond
    constructor
    · unfold areSingleRaysOccludedStep
      simp [hsd, hshadow, hcond, getTransmittance]
    · unfold computeXPUOcclusionStep
      simp [hsd, hshadow, hstd, hcond, getTransmittance]
  · intro hcond
    constructor
    · unfold areSingleRaysOccludedStep
      simp [hsd, hshadow, hcond, getTransmittance]
    · unfold computeXPUOcclusionStep
      simp [hsd, hshadow, hstd, hcond, getTransmittance]
  · unfold areSingleRaysOccludedStep
    simp [hsd, hshadow]
  · unfold computeXPUOcclusionStep
    simp [hsd, hshadow, hstd]
  · intro hfd hband hpos
    exact calculateShadowFalloff_ne_black sd.light r.mMaxT (r.tr * r.mRadiance)
      hfd hband hpos

/-- **C7** witness: the demo ray (max distance 2, clear radius 1, falloff
distance 2) is inside the falloff band; the emitted contribution is the
half-weighted attenuated radiance (5,10,15), which is non-zero. -/
theorem C7_clear_radius_falloff_witness :
    (areSingleRaysOccludedStep fsDemo true occlRayDemo).radiances =
      [fillBundledRadiance
        { occlRayDemo with
            mRadiance := calculateShadowFalloff sdDemo.light occlRayDemo.mMaxT
              (occlRayDemo.tr * occlRayDemo.mRadiance) }]
  ∧ calculateShadowFalloff sdDemo.light occlRayDemo.mMaxT
      (occlRayDemo.tr * occlRayDemo.mRadiance) = ⟨5, 10, 15⟩
  ∧ calculateShadowFalloff sdDemo.light occlRayDemo.mMaxT
      (occlRayDemo.tr * occlRayDemo.mRadiance) ≠ sBlack := by
  have h := C7_clear_radius_falloff fsDemo occlRayDemo sdDemo rfl rfl rfl
  refine ⟨(h.1 (by norm_num [sdDemo, lightDemo, occlRayDemo])).1, ?_,
    h.2.2.2.2 (by norm_num [sdDemo, lightDemo])
      (by norm_num [sdDemo, lightDemo, occlRayDemo])
      (by refine ⟨?_, ?_, ?_⟩ <;> norm_num [occlRayDemo])⟩
  unfold calculateShadowFalloff
  norm_num [sdDemo, lightDemo, occlRayDemo]

/-!  ### The std::partition model -/

/-- If `dropWhile` returns a cons, its head fails the predicate. -/
theorem dropWhile_head_not {α : Type} (p : α → Bool) :
    ∀ (l : List α) {x : α} {rest : List α}, l.dropWhile p = x :: rest → p x = false := by
  intro l
  induction l with
  | nil => intro x rest h; simp [List.dropWhile] at h
  | cons a t ih =>
    intro x rest h
    rw [List.dropWhile_cons] at h
    cases hp : p a
    · rw [hp] at h
      simp at h
      rw [← h.1]
      exact hp
    · rw [hp] at h
      simp at h
      exact ih h

/-- Unfolding equation for one round of the two-pointer partition. -/
theorem partGo_succ {α : Type} (pred : α → Bool) (fuel : ℕ) (l : List α) :
    partGo pred (fuel + 1) l =
      match l.dropWhile pred with
      | [] => l
      | x :: rest =>
        match rest.reverse.dropWhile (fun e => !pred e) with
        | [] => l
        | y :: midRev =>
            l.takeWhile pred ++ y :: partGo pred fuel midRev.reverse ++
              x :: (rest.reverse.takeWhile (fun e => !pred e)).reverse := rfl

/-- A round that finds no failing element leaves the list unchanged. -/
theorem partGo_stop1 {α : Type} (pred : α → Bool) (fuel : ℕ) {l : List α}
    (hdw : l.dropWhile pred = []) : partGo pred (fuel + 1) l = l := by
  rw [partGo_succ, hdw]

/-- A round that finds no satisfying element to swap in leaves the list
unchanged. -/
theorem partGo_stop2 {α : Type} (pred : α → Bool) (fuel : ℕ) {l : List α}
    {x : α} {rest : List α} (hdw : l.dropWhile pred = x :: rest)
    (hdw2 : rest.reverse.dropWhile (fun e => !pred e) = []) :
    partGo pred (fuel + 1) l = l := by
  rw [partGo_succ, hdw]
  dsimp only
  rw [hdw2]

/-- The swapping round of the partition. -/
theorem partGo_round {α : Type} (pred : α → Bool) (fuel : ℕ) {l : List α}
    {x y : α} {rest midRev : List α}
    (hdw : l.dropWhile pred = x :: rest)
    (hdw2 : rest.reverse.dropWhile (fun e => !pred e) = y :: midRev) :
    partGo pred (fuel + 1) l =
      l.takeWhile pred ++ y :: partGo pred fuel midRev.reverse ++
        x :: (rest.reverse.takeWhile (fun e => !pred e)).reverse := by
  rw [partGo_succ, hdw]
  dsimp only
  rw [hdw2]

/-- Length accounting for the main partition round. -/
theorem partGo_round_length {α : Type} (pred : α → Bool) {l : List α}
    {x y : α} {rest midRev : List α}
    (hdw : l.dropWhile pred = x :: rest)
    (hdw2 : rest.reverse.dropWhile (fun e => !pred e) = y :: midRev) :
    midRev.length + 2 ≤ l.length := by
  have h1 : l.takeWhile pred ++ (x :: rest) = l := by
    rw [← hdw]; exact List.takeWhile_append_dropWhile _ _
  have h2 : rest.reverse.takeWhile (fun e => !pred e) ++ (y :: midRev) = rest.reverse := by
    rw [← hdw2]; exact List.takeWhile_append_dropWhile _ _
  have hl1 := congrArg List.length h1
  have hl2 := congrArg List.length h2
  simp [List.length_append] at hl1 hl2
  omega

/-- The middle segment recursed on, as a decomposition of `rest`. -/
theorem partGo_round_rest {α : Type} (pred : α → Bool) {rest : List α}
    {y : α} {midRev : List α}
    (hdw2 : rest.reverse.dropWhile (fun e => !pred e) = y :: midRev) :
    rest = midRev.reverse ++ y ::
      (rest.reverse.takeWhile (fun e => !pred e)).reverse := by
  have h2 : rest.reverse.takeWhile (fun e => !pred e) ++ (y :: midRev) = rest.reverse := by
    rw [← hdw2]; exact List.takeWhile_append_dropWhile _ _
  have h3 := congrArg List.reverse h2
  rw [List.reverse_append, List.reverse_reverse, List.reverse_cons] at h3
  calc rest = (midRev.reverse ++ [y]) ++
        (rest.reverse.takeWhile (fun e => !pred e)).reverse := h3.symm
    _ = midRev.reverse ++ y ::
        (rest.reverse.takeWhile (fun e => !pred e)).reverse := by simp

/-- `partGo` permutes its input whenever the fuel covers the length. -/
theorem partGo_perm {α : Type} (pred : α → Bool) :
    ∀ (fuel : ℕ) (l : List α), l.length ≤ fuel → (partGo pred fuel l).Perm l := by
  intro fuel
  induction fuel with
  | zero => intro l _; exact List.Perm.refl l
  | succ fuel ih =>
    intro l hl
    cases hdw : l.dropWhile pred with
    | nil => rw [partGo_stop1 pred fuel hdw]
    | cons x rest =>
      cases hdw2 : rest.reverse.dropWhile (fun e => !pred e) with
      | nil => rw [partGo_stop2 pred fuel hdw hdw2]
      | cons y midRev =>
        have hlen := partGo_round_length pred hdw hdw2
        have hA : (partGo pred fuel midRev.reverse).Perm midRev.reverse := by
          apply ih
          simp
          omega
        have hl' : l = l.takeWhile pred ++ x ::
            (midRev.reverse ++ y ::
              (rest.reverse.takeWhile (fun e => !pred e)).reverse) := by
          conv_lhs => rw [← List.takeWhile_append_dropWhile pred l]
          rw [hdw, ← partGo_round_rest pred hdw2]
        rw [partGo_round pred fuel hdw hdw2]
        conv_rhs => rw [hl']
        rw [List.append_assoc, List.cons_append]
        refine List.Perm.append_left _ ?_
        refine (List.Perm.cons y List.perm_middle).trans ?_
        refine (List.Perm.swap x y _).trans ?_
        refine (List.Perm.cons x (List.Perm.cons y (hA.append_right _))).trans ?_
        exact List.Perm.cons x List.perm_middle.symm

/-- `partGo` splits its output into a satisfying prefix and a failing suffix. -/
theorem partGo_partitioned {α : Type} (pred : α → Bool) :
    ∀ (fuel : ℕ) (l : List α), l.length ≤ fuel →
      ∃ A B, partGo pred fuel l = A ++ B ∧ (∀ a ∈ A, pred a = true) ∧
        (∀ b ∈ B, pred b = false) := by
  intro fuel
  induction fuel with
  | zero =>
    intro l hl
    have hnil : l = [] := List.length_eq_zero.mp (Nat.le_zero.mp hl)
    subst hnil
    exact ⟨[], [], rfl, by simp, by simp⟩
  | succ fuel ih =>
    intro l hl
    cases hdw : l.dropWhile pred with
    | nil =>
      refine ⟨l, [], by rw [partGo_stop1 pred fuel hdw]; simp, ?_, by simp⟩
      intro a ha
      simpa using List.dropWhile_eq_nil_iff.mp hdw a ha
    | cons x rest =>
      cases hdw2 : rest.reverse.dropWhile (fun e => !pred e) with
      | nil =>
        refine ⟨l.takeWhile pred, x :: rest, ?_, ?_, ?_⟩
        · rw [partGo_stop2 pred fuel hdw hdw2]
          conv_lhs => rw [← List.takeWhile_append_dropWhile pred l, hdw]
        · intro a ha; exact List.mem_takeWhile_imp ha
        · intro b hb
          rcases List.mem_cons.mp hb with hb | hb
          · subst hb; exact dropWhile_head_not pred l hdw
          · have := List.dropWhile_eq_nil_iff.mp hdw2 b (by simpa using hb)
            simpa using this
      | cons y midRev =>
        have hlen := partGo_round_length pred hdw hdw2
        obtain ⟨A, B, hEq, hA, hB⟩ := ih midRev.reverse (by simp; omega)
        refine ⟨l.takeWhile pred ++ y :: A,
                B ++ x :: (rest.reverse.takeWhile (fun e => !pred e)).reverse,
                ?_, ?_, ?_⟩
        · rw [partGo_round pred fuel hdw hdw2, hEq]
          simp
        · intro a ha
          rcases List.mem_append.mp ha with ha | ha
          · exact List.mem_takeWhile_imp ha
          · rcases List.mem_cons.mp ha with ha | ha
            · subst ha
              have := dropWhile_head_not (fun e => !pred e) rest.reverse hdw2
              simpa using this
            · exact hA a ha
        · intro b hb
          rcases List.mem_append.mp hb with hb | hb
          · exact hB b hb
          · rcases List.mem_cons.mp hb with hb | hb
            · subst hb; exact dropWhile_head_not pred l hdw
            · have hbm : b ∈ rest.reverse.takeWhile (fun e => !pred e) := by
                simpa using hb
              have := List.mem_takeWhile_imp hbm
              simpa using this

/-- `std::partition` permutes the entry array. -/
theorem stdPartition_perm {α : Type} (pred : α → Bool) (l : List α) :
    (stdPartition pred l).Perm l :=
  partGo_perm pred l.length l (Nat.le_refl _)

/-- `std::partition` puts every satisfying element before every failing one. -/
theorem stdPartition_partitioned {α : Type} (pred : α → Bool) (l : List α) :
    ∃ A B, stdPartition pred l = A ++ B ∧ (∀ a ∈ A, pred a = true) ∧
      (∀ b ∈ B, pred b = false) :=
  partGo_partitioned pred l.length l (Nat.le_refl _)

/-- On a partitioned list, `takeWhile`/`dropWhile` recover the two halves. -/
theorem takeWhile_dropWhile_of_partitioned {α : Type} (pred : α → Bool)
    (A B : List α) (hA : ∀ a ∈ A, pred a = true) (hB : ∀ b ∈ B, pred b = false) :
    (A ++ B).takeWhile pred = A ∧ (A ++ B).dropWhile pred = B := by
  induction A with
  | nil =>
    cases B with
    | nil => exact ⟨rfl, rfl⟩
    | cons b t =>
      constructor
      · simp [List.takeWhile_cons, hB b (List.mem_cons_self b t)]
      · simp [List.dropWhile_cons, hB b (List.mem_cons_self b t)]
  | cons a t ih =>
    obtain ⟨ih1, ih2⟩ := ih fun x hx => hA x (List.mem_cons_of_mem a hx)
    constructor
    · simp [List.takeWhile_cons, hA a (List.mem_cons_self a t), ih1]
    · simp [List.dropWhile_cons, hA a (List.mem_cons_self a t), ih2]

/-- Every branch of the CPU standard-occlusion loop body issues exactly one
accelerator query, for the processed ray itself. -/
theorem areSingleRaysOccludedStep_occlTests (fs : FrameState) (o : Bool)
    (r : BundledOcclRay) : (areSingleRaysOccludedStep fs o r).occlTests = [r] := by
  unfold areSingleRaysOccludedStep
  cases hc : (!o || !fs.enableShadowing) <;> cases hr : r.sideData <;> simp [hc, hr]

theorem areSingleRaysOccludedBatch_occlTests (fs : FrameState)
    (occl : BundledOcclRay → Bool) (entries : List BundledOcclRay) :
    (areSingleRaysOccludedBatch fs occl entries).occlTests = entries := by
  induction entries with
  | nil => rfl
  | cons a t ih =>
    simp [areSingleRaysOccludedBatch] at ih ⊢
    simp [areSingleRaysOccludedStep_occlTests, ih]

theorem forceSingleRaysUnoccludedBatch_occlTests (entries : List BundledOcclRay) :
    (forceSingleRaysUnoccludedBatch entries).occlTests = [] := by
  induction entries with
  | nil => rfl
  | cons a t ih =>
    simp [forceSingleRaysUnoccludedBatch, forceSingleRaysUnoccludedStep] at ih ⊢

/-- **C8** (amended).  `computeOcclusionQueriesBundled` partitions the entry
array in place so that all STANDARD rays precede all FORCE_NOT_OCCLUDED rays —
the result is a permutation of the input, but `std::partition` is not stable,
so neither class is guaranteed to keep its original relative order (see the
counterexample) — and no occlusion test is issued to the accelerator for any
FORCE_NOT_OCCLUDED ray. -/
theorem C8_occlusion_partition (fs : FrameState) (occl : BundledOcclRay → Bool)
    (entries : List BundledOcclRay) :
    (stdPartition isStandardTest entries).Perm entries
  ∧ (∃ A B, stdPartition isStandardTest entries = A ++ B ∧
       (∀ a ∈ A, a.mOcclTestType = OcclTestType.STANDARD) ∧
       (∀ b ∈ B, b.mOcclTestType = OcclTestType.FORCE_NOT_OCCLUDED))
  ∧ (∀ r ∈ (computeOcclusionQueriesBundled fs occl entries).occlTests,
       r.mOcclTestType = OcclTestType.STANDARD) := by
  obtain ⟨A, B, hAB, hA, hB⟩ := stdPartition_partitioned isStandardTest entries
  have hA' : ∀ a ∈ A, a.mOcclTestType = OcclTestType.STANDARD := by
    intro a ha
    have := hA a ha
    simpa [isStandardTest] using this
  have hB' : ∀ b ∈ B, b.mOcclTestType = OcclTestType.FORCE_NOT_OCCLUDED := by
    intro b hb
    have hfalse := hB b hb
    cases hbt : b.mOcclTestType
    · simp [isStandardTest, hbt] at hfalse
    · rfl
  refine ⟨stdPartition_perm isStandardTest entries, ⟨A, B, hAB, hA', hB'⟩, ?_⟩
  intro r hr
  obtain ⟨ht, hd⟩ := takeWhile_dropWhile_of_partitioned isStandardTest A B hA hB
  unfold computeOcclusionQueriesBundled at hr
  rw [hAB] at hr
  simp [ht, hd, areSingleRaysOccludedBatch_occlTests,
        forceSingleRaysUnoccludedBatch_occlTests] at hr
  exact hA' r hr

/-- **C8** counterexample to the claim as stated: on the entry array
[FORCE, STANDARD(pixel 1), STANDARD(pixel 2)], the two-pointer
`std::partition` emits the STANDARD class in reversed order, so the partition
is not stable. -/
theorem C8_counterexample :
    ((stdPartition isStandardTest
        [forceRayDemo 0, stdRayDemo 1, stdRayDemo 2]).filter isStandardTest).map
          BundledOcclRay.mPixel ≠
      (([forceRayDemo 0, stdRayDemo 1, stdRayDemo 2]).filter isStandardTest).map
          BundledOcclRay.mPixel := by
  decide

/-- **C8** witness: the partition permutation at a concrete entry array. -/
theorem C8_occlusion_partition_witness :
    (stdPartition isStandardTest [forceRayDemo 0, stdRayDemo 1, stdRayDemo 2]).Perm
      [forceRayDemo 0, stdRayDemo 1, stdRayDemo 2] :=
  (C8_occlusion_partition fsDemo (fun _ => true)
    [forceRayDemo 0, stdRayDemo 1, stdRayDemo 2]).1

/-- Per-ray radiance-count bounds for all four step functions. -/
theorem step_radiances_le (fs : FrameState) (o : Bool) (p : ℚ) (r : BundledOcclRay) :
    (areSingleRaysOccludedStep fs o r).radiances.length ≤ 1
  ∧ (forceSingleRaysUnoccludedStep r).radiances.length = 1
  ∧ (computePresenceShadowsStep fs p r).radiances.length ≤ 1
  ∧ (computeXPUOcclusionStep fs o r).radiances.length ≤ 1 := by
  refine ⟨?_, rfl, ?_, ?_⟩
  · unfold areSingleRaysOccludedStep
    cases hc : (!o || !fs.enableShadowing) <;> cases hr : r.sideData <;>
      simp [hc, hr] <;> split <;> simp
  · unfold computePresenceShadowsStep
    cases hr : r.sideData <;> simp [hr, Effects.empty]
  · unfold computeXPUOcclusionStep
    cases ht : r.mOcclTestType <;> cases hc : (!o || !fs.enableShadowing) <;>
      cases hr : r.sideData <;> simp [ht, hc, hr] <;> split <;> simp

/-- Batch-level bound: at most one radiance per mapped element. -/
theorem effConcat_map_radiances_le {α : Type} (f : α → Effects) (l : List α)
    (h : ∀ a ∈ l, (f a).radiances.length ≤ 1) :
    (effConcat (l.map f)).radiances.length ≤ l.length := by
  induction l with
  | nil => simp [Effects.empty]
  | cons a t ih =>
    have ha := h a (List.mem_cons_self a t)
    have ht := ih fun x hx => h x (List.mem_cons_of_mem a hx)
    simp only [List.map_cons, effConcat_cons, effAppend_radiances,
      List.length_append, List.length_cons]
    omega

/-- **C10** (confirmed).  Each of the three bundled resolvers fills at most
one BundledRadiance per input ray (per-step bounds included), so the returned
count never exceeds the number of input entries and the results array of
capacity `numEntries` is never overrun: the assertion
`numRadiancesFilled <= numEntries` of the bundle handlers holds. -/
theorem C10_radiance_count_bounds (fs : FrameState) (occl : BundledOcclRay → Bool)
    (pres : BundledOcclRay → ℚ) (entries : List BundledOcclRay) :
    (computeOcclusionQueriesBundled fs occl entries).radiances.length ≤ entries.length
  ∧ (computePresenceShadowsQueriesBundled fs pres entries).radiances.length ≤ entries.length
  ∧ (computeXPUOcclusionQueriesOnGPU fs occl entries).radiances.length ≤ entries.length
  ∧ (∀ (o : Bool) (p : ℚ) (r : BundledOcclRay),
      (areSingleRaysOccludedStep fs o r).radiances.length ≤ 1 ∧
      (forceSingleRaysUnoccludedStep r).radiances.length = 1 ∧
      (computePresenceShadowsStep fs p r).radiances.length ≤ 1 ∧
      (computeXPUOcclusionStep fs o r).radiances.length ≤ 1) := by
  refine ⟨?_, ?_, ?_, fun o p r => step_radiances_le fs o p r⟩
  · obtain ⟨A, B, hAB, hA, hB⟩ := stdPartition_partitioned isStandardTest entries
    obtain ⟨ht, hd⟩ := takeWhile_dropWhile_of_partitioned isStandardTest A B hA hB
    have hlen : A.length + B.length = entries.length := by
      have := (stdPartition_perm isStandardTest entries).length_eq
      rw [hAB] at this
      simpa [List.length_append] using this
    unfold computeOcclusionQueriesBundled
    rw [hAB]
    simp only [ht, hd, effAppend_radiances, List.length_append]
    have h1 : (areSingleRaysOccludedBatch fs occl A).radiances.length ≤ A.length :=
      effConcat_map_radiances_le _ A fun a _ => (step_radiances_le fs (occl a) 0 a).1
    have h2 : (forceSingleRaysUnoccludedBatch B).radiances.length ≤ B.length := by
      apply effConcat_map_radiances_le _ B
      intro b _
      exact Nat.le_of_eq (step_radiances_le fs false 0 b).2.1
    omega
  · apply effConcat_map_radiances_le
    intro a _
    exact (step_radiances_le fs false (pres a) a).2.2.1
  · apply effConcat_map_radiances_le
    intro a _
    exact (step_radiances_le fs (occl a) 0 a).2.2.2

/-!  ### The material sort -/

theorem bucketAux_succ (n : ℕ) (l : List SortedEntry) :
    bucketAux (n + 1) l = bucketAux n l ++ l.filter fun e => e.mSortKey = n := by
  unfold bucketAux
  rw [List.range_succ]
  simp

theorem mem_bucketAux {n : ℕ} {l : List SortedEntry} {e : SortedEntry}
    (h : e ∈ bucketAux n l) : e.mSortKey < n ∧ e ∈ l := by
  unfold bucketAux at h
  obtain ⟨k, hk, he⟩ := List.mem_flatMap.mp h
  obtain ⟨hel, hkey⟩ := List.mem_filter.mp he
  have hek : e.mSortKey = k := by simpa using hkey
  exact ⟨hek ▸ List.mem_range.mp hk, hel⟩

theorem bucketAux_sorted (l : List SortedEntry) :
    ∀ n, List.Pairwise (fun a b => a.mSortKey ≤ b.mSortKey) (bucketAux n l) := by
  intro n
  induction n with
  | zero => simp [bucketAux]
  | succ n ih =>
    rw [bucketAux_succ, List.pairwise_append]
    refine ⟨ih, ?_, ?_⟩
    · apply List.pairwise_of_forall_mem_list
      intro a ha b hb
      have h1 : a.mSortKey = n := by simpa using (List.mem_filter.mp ha).2
      have h2 : b.mSortKey = n := by simpa using (List.mem_filter.mp hb).2
      omega
    · intro a ha b hb
      have h1 := (mem_bucketAux ha).1
      have h2 : b.mSortKey = n := by simpa using (List.mem_filter.mp hb).2
      omega

theorem bucketAux_perm (l : List SortedEntry) :
    ∀ n, (bucketAux n l).Perm (l.filter fun e => e.mSortKey < n) := by
  intro n
  induction n with
  | zero =>
    have h0 : l.filter (fun e => e.mSortKey < 0) = [] := by
      apply List.filter_eq_nil_iff.mpr
      intro a _
      simp
    rw [h0]
    simp [bucketAux]
  | succ n ih =>
    rw [bucketAux_succ]
    have e1 : (l.filter fun e => e.mSortKey < n + 1).filter (fun e => e.mSortKey < n) =
        l.filter fun e => e.mSortKey < n := by
      rw [List.filter_filter]
      apply List.filter_congr
      intro x _
      by_cases h : x.mSortKey < n
      · have h2 : x.mSortKey < n + 1 := by omega
        simp [h, h2]
      · simp [h]
    have e2 : (l.filter fun e => e.mSortKey < n + 1).filter
        (fun e => !(decide (e.mSortKey < n))) = l.filter fun e => e.mSortKey = n := by
      rw [List.filter_filter]
      apply List.filter_congr
      intro x _
      rcases Nat.lt_trichotomy x.mSortKey n with h | h | h
      · have h2 : x.mSortKey ≠ n := by omega
        simp [h, h2]
      · have h2 : ¬x.mSortKey < n := by omega
        have h3 : x.mSortKey < n + 1 := by omega
        simp [h, h2, h3]
      · have h2 : ¬x.mSortKey < n + 1 := by omega
        have h3 : x.mSortKey ≠ n := by omega
        simp [h2, h3]
    have hsplit := List.filter_append_perm (fun e => e.mSortKey < n)
      (l.filter fun e => e.mSortKey < n + 1)
    rw [e1, e2] at hsplit
    exact (ih.append_right _).trans hsplit

theorem bucketSortByKey_perm (maxKey : ℕ) (l : List SortedEntry)
    (h : ∀ e ∈ l, e.mSortKey ≤ maxKey) : (bucketSortByKey maxKey l).Perm l := by
  unfold bucketSortByKey
  have hp := bucketAux_perm l (maxKey + 1)
  have hfl : l.filter (fun e => e.mSortKey < maxKey + 1) = l := by
    apply List.filter_eq_self.mpr
    intro a ha
    simpa using Nat.lt_succ_of_le (h a ha)
  rwa [hfl] at hp

theorem bucketSortByKey_sorted (maxKey : ℕ) (l : List SortedEntry) :
    List.Pairwise (fun a b => a.mSortKey ≤ b.mSortKey) (bucketSortByKey maxKey l) :=
  bucketAux_sorted l (maxKey + 1)

theorem cmpSortByKey_perm (l : List SortedEntry) : (cmpSortByKey l).Perm l :=
  List.mergeSort_perm l _

theorem cmpSortByKey_sorted (l : List SortedEntry) :
    List.Pairwise (fun a b => a.mSortKey ≤ b.mSortKey) (cmpSortByKey l) := by
  have h : (l.mergeSort fun a b => decide (a.mSortKey ≤ b.mSortKey)).Pairwise
      (fun a b => decide (a.mSortKey ≤ b.mSortKey) = true) :=
    List.sorted_mergeSort (by intro a b c hab hbc; simp at hab hbc ⊢; omega)
      (by intro a b; simp; omega) l
  exact h.imp (by intro a b hab; simpa using hab)

/-- The two sort paths assign the same (sorted) key sequence. -/
theorem sorted_perm_keys_eq (l₁ l₂ : List SortedEntry)
    (h₁ : List.Pairwise (fun a b => a.mSortKey ≤ b.mSortKey) l₁)
    (h₂ : List.Pairwise (fun a b => a.mSortKey ≤ b.mSortKey) l₂)
    (hp : l₁.Perm l₂) :
    l₁.map SortedEntry.mSortKey = l₂.map SortedEntry.mSortKey := by
  apply List.eq_of_perm_of_sorted (r := (· ≤ ·)) (hp.map _)
  · exact (List.pairwise_map).mpr h₁
  · exact (List.pairwise_map).mpr h₂

/-- In a key-sorted list the key-0 entries form exactly the leading
`takeWhile` run. -/
theorem takeWhile_zero_eq_filter (l : List SortedEntry)
    (hs : List.Pairwise (fun a b => a.mSortKey ≤ b.mSortKey) l) :
    l.takeWhile (fun e => e.mSortKey = 0) = l.filter (fun e => e.mSortKey = 0) := by
  induction l with
  | nil => rfl
  | cons a t ih =>
    rw [List.pairwise_cons] at hs
    by_cases ha : a.mSortKey = 0
    · simp [List.takeWhile_cons, List.filter_cons, ha, ih hs.2]
    · rw [List.takeWhile_cons, List.filter_cons]
      have hfil : t.filter (fun e => e.mSortKey = 0) = [] := by
        apply List.filter_eq_nil_iff.mpr
        intro b hb
        have := hs.1 b hb
        simp
        omega
      simp [ha, hfil]

/-- In a key-sorted list, dropping the key-0 run leaves exactly the non-zero
entries. -/
theorem dropWhile_zero_eq_filter (l : List SortedEntry)
    (hs : List.Pairwise (fun a b => a.mSortKey ≤ b.mSortKey) l) :
    l.dropWhile (fun e => e.mSortKey = 0) = l.filter (fun e => e.mSortKey ≠ 0) := by
  induction l with
  | nil => rfl
  | cons a t ih =>
    rw [List.pairwise_cons] at hs
    by_cases ha : a.mSortKey = 0
    · simp [List.dropWhile_cons, List.filter_cons, ha, ih hs.2]
    · rw [List.dropWhile_cons, List.filter_cons]
      have hfil : t.filter (fun e => !decide (e.mSortKey = 0)) = t := by
        apply List.filter_eq_self.mpr
        intro b hb
        have := hs.1 b hb
        simp
        omega
      simp [ha, hfil]

/-- Classification of a miss (RayHandlers.cc:393-421). -/
theorem phase1Step_miss (fs : FrameState) (rs : RayState) (h : rs.geomHit = false) :
    (phase1Step fs rs).sorted = [⟨0, rs.rsIdx, none, rs⟩] ∧
    (phase1Step fs rs).toFree = [] := by
  unfold phase1Step
  simp [h]

/-- Classification of a hit with an assigned material (RayHandlers.cc:429-440). -/
theorem phase1Step_mat (fs : FrameState) (rs : RayState) (m : Material)
    (hg : rs.geomHit = true) (hm : rs.material = some m) :
    (phase1Step fs rs).sorted = [⟨m.materialId, rs.rsIdx, some m, rs⟩] ∧
    (phase1Step fs rs).toFree = [] := by
  unfold phase1Step
  simp [hg, hm]

/-- Classification of a hit with no assigned material (RayHandlers.cc:441-470). -/
theorem phase1Step_nullmat (fs : FrameState) (rs : RayState)
    (hg : rs.geomHit = true) (hm : rs.material = none) :
    (phase1Step fs rs).sorted = [] ∧ (phase1Step fs rs).toFree = [rs.rsIdx] := by
  unfold phase1Step
  simp [hg, hm]

/-- **C4** (confirmed).  Misses get sort key 0 and material hits get their
material id as key, which the code asserts non-zero (so ≥ 1); both the
bucket-sort path and the comparison-sort path sort ascending by key, permute
the classified entries, and produce the same grouping — the same key sequence
and, for every key, the same multiset of entries — and on both outputs the
misses form one leading contiguous run. -/
theorem C4_material_sort (fs : FrameState) (rays : List RayState) (maxKey : ℕ)
    (hmat : ∀ rs ∈ rays, (rs.material.all fun m => decide (1 ≤ m.materialId)) = true)
    (hmax : ∀ e ∈ sortedEntriesOf fs rays, e.mSortKey ≤ maxKey) :
    (∀ rs ∈ rays, rs.geomHit = false →
        ((phase1Step fs rs).sorted.map SortedEntry.mSortKey) = [0])
  ∧ (∀ rs ∈ rays, ∀ m, rs.material = some m → rs.geomHit = true →
        ((phase1Step fs rs).sorted.map SortedEntry.mSortKey) = [m.materialId] ∧
        1 ≤ m.materialId)
  ∧ List.Pairwise (fun a b => a.mSortKey ≤ b.mSortKey)
      (bucketSortByKey maxKey (sortedEntriesOf fs rays))
  ∧ List.Pairwise (fun a b => a.mSortKey ≤ b.mSortKey)
      (cmpSortByKey (sortedEntriesOf fs rays))
  ∧ (bucketSortByKey maxKey (sortedEntriesOf fs rays)).Perm (sortedEntriesOf fs rays)
  ∧ (cmpSortByKey (sortedEntriesOf fs rays)).Perm (sortedEntriesOf fs rays)
  ∧ (bucketSortByKey maxKey (sortedEntriesOf fs rays)).map SortedEntry.mSortKey =
      (cmpSortByKey (sortedEntriesOf fs rays)).map SortedEntry.mSortKey
  ∧ (∀ k, ((bucketSortByKey maxKey (sortedEntriesOf fs rays)).filter
        fun e => e.mSortKey = k).Perm
        ((cmpSortByKey (sortedEntriesOf fs rays)).filter fun e => e.mSortKey = k))
  ∧ ((bucketSortByKey maxKey (sortedEntriesOf fs rays)).takeWhile
        fun e => e.mSortKey = 0) =
      ((bucketSortByKey maxKey (sortedEntriesOf fs rays)).filter fun e => e.mSortKey = 0)
  ∧ ((cmpSortByKey (sortedEntriesOf fs rays)).takeWhile fun e => e.mSortKey = 0) =
      ((cmpSortByKey (sortedEntriesOf fs rays)).filter fun e => e.mSortKey = 0) := by
  have hbp := bucketSortByKey_perm maxKey _ hmax
  have hbs := bucketSortByKey_sorted maxKey (sortedEntriesOf fs rays)
  have hcp := cmpSortByKey_perm (sortedEntriesOf fs rays)
  have hcs := cmpSortByKey_sorted (sortedEntriesOf fs rays)
  refine ⟨?_, ?_, hbs, hcs, hbp, hcp, ?_, ?_, ?_, ?_⟩
  · intro rs _ hg
    rw [(phase1Step_miss fs rs hg).1]
    rfl
  · intro rs hrs m hm hg
    have h1 : 1 ≤ m.materialId := by
      have := hmat rs hrs
      rw [hm] at this
      simpa using this
    exact ⟨by rw [(phase1Step_mat fs rs m hg hm).1]; rfl, h1⟩
  · exact sorted_perm_keys_eq _ _ hbs hcs (hbp.trans hcp.symm)
  · intro k
    exact (hbp.filter _).trans ((hcp.filter _).symm)
  · exact takeWhile_zero_eq_filter _ hbs
  · exact takeWhile_zero_eq_filter _ hcs

/-- **C4** witness: the spec's scenario — the demo batch classifies to the key
sequence [0,0,3,1,0,3,1]; both sort paths produce the same grouping, with
ascending key sequence [0,0,0,1,1,3,3]. -/
theorem C4_material_sort_witness :
    (bucketSortByKey 3 (sortedEntriesOf fsDemo raysDemo)).map SortedEntry.mSortKey =
      (cmpSortByKey (sortedEntriesOf fsDemo raysDemo)).map SortedEntry.mSortKey
  ∧ (bucketSortByKey 3 (sortedEntriesOf fsDemo raysDemo)).map SortedEntry.mSortKey =
      [0, 0, 0, 1, 1, 3, 3]
  ∧ (sortedEntriesOf fsDemo raysDemo).map SortedEntry.mSortKey =
      [0, 0, 3, 1, 0, 3, 1] := by
  have h := C4_material_sort fsDemo raysDemo 3 (by decide) (by decide)
  exact ⟨h.2.2.2.2.2.2.1, by decide, by decide⟩

/-!  ### The miss handler -/

theorem color_add_black (c : Color) : c + sBlack = c := by
  cases c
  simp [sBlack]

/-- **C5** (amended).  For primary (depth 0) miss rays the emitted alpha
follows the five-case policy: light found and opaque-in-alpha → full path
pixel weight; light found, not opaque, volume traversed → weight × (1 −
reduced volume alpha transmittance); light found, not opaque, no volume → 0;
no light found but volume traversed → weight × (1 − reduced transmittance);
neither → 0.  For non-primary miss rays no light lookup is performed and the
alpha is always 0 (even when a volume was traversed).  The volume radiance is
always added to whatever light radiance was found, and a ray with no geometry
hit, no volume, and no light yields radiance (0,0,0) and alpha 0. -/
theorem C5_miss_alpha_policy (fs : FrameState) (lookup : Option VisibleLightHit)
    (rs : RayState) :
    (rs.depth = 0 →
      (∀ hl, lookup = some hl → hl.light.isOpaqueInAlpha = true →
        (missRetireStep fs lookup rs).1.mAlpha = rs.pv.pathPixelWeight)
    ∧ (∀ hl, lookup = some hl → hl.light.isOpaqueInAlpha = false → rs.volHit = true →
        (missRetireStep fs lookup rs).1.mAlpha =
          rs.pv.pathPixelWeight * (1 - reduceTransparency rs.volTalpha))
    ∧ (∀ hl, lookup = some hl → hl.light.isOpaqueInAlpha = false → rs.volHit = false →
        (missRetireStep fs lookup rs).1.mAlpha = 0)
    ∧ (lookup = none → rs.volHit = true →
        (missRetireStep fs lookup rs).1.mAlpha =
          rs.pv.pathPixelWeight * (1 - reduceTransparency rs.volTalpha))
    ∧ (lookup = none → rs.volHit = false →
        (missRetireStep fs lookup rs).1.mAlpha = 0))
  ∧ (rs.depth ≠ 0 → (missRetireStep fs lookup rs).1.mAlpha = 0)
  ∧ (missRetireStep fs lookup rs).1.mRadiance =
      (missRetireStep fs lookup { rs with volRad := sBlack }).1.mRadiance + rs.volRad
  ∧ (lookup = none → rs.volHit = false → rs.volRad = sBlack →
      (missRetireStep fs lookup rs).1.mRadiance = sBlack ∧
      (missRetireStep fs lookup rs).1.mAlpha = 0) := by
  refine ⟨?_, ?_, ?_, ?_⟩
  · intro hd
    refine ⟨?_, ?_, ?_, ?_, ?_⟩
    · intro hl hlk hop
      unfold missRetireStep
      simp [hd, hlk, hop]
    · intro hl hlk hop hvol
      unfold missRetireStep
      simp [hd, hlk, hop, hvol]
    · intro hl hlk hop hvol
      unfold missRetireStep
      simp [hd, hlk, hop, hvol]
    · intro hlk hvol
      unfold missRetireStep
      simp [hd, hlk, hvol]
    · intro hlk hvol
      unfold missRetireStep
      simp [hd, hlk, hvol]
  · intro hd
    unfold missRetireStep
    simp [hd]
  · unfold missRetireStep
    dsimp only
    rw [color_add_black]
  · intro hlk hvol hrad
    unfold missRetireStep
    constructor
    · simp [hlk, hvol, hrad, color_add_black, sBlack]
    · simp [hlk, hvol]

/-- **C5** counterexample to the claim as stated: a depth-1 miss ray that
traversed a volume with zero alpha transmittance and no light found.  The
five-case policy ("no light found but volume traversed") demands alpha =
pixel weight × (1 − reduced transmittance) = 1, but the code computes alpha 0
for every non-primary ray (the volume branch sits inside the `depth == 0`
block, RayHandlers.cc:528/576-581). -/
theorem C5_counterexample :
    (missRetireStep fsDemo none rsDepth1VolDemo).1.mAlpha = 0
  ∧ rsDepth1VolDemo.volHit = true
  ∧ rsDepth1VolDemo.pv.pathPixelWeight *
      (1 - reduceTransparency rsDepth1VolDemo.volTalpha) = 1
  ∧ (0 : ℚ) ≠ 1 := by
  refine ⟨rfl, rfl, ?_, by norm_num⟩
  norm_num [rsDepth1VolDemo, baseRsDemo, pvDemo, reduceTransparency, sBlack]

/-- **C5** witness: a primary miss hitting an opaque-in-alpha light gets the
full pixel weight as alpha; a secondary miss gets alpha 0. -/
theorem C5_miss_alpha_policy_witness :
    (missRetireStep fsDemo (some vlhOpaqueDemo) baseRsDemo).1.mAlpha = 1
  ∧ (missRetireStep fsDemo none rsDepth1VolDemo).1.mAlpha = 0 := by
  have h := C5_miss_alpha_policy fsDemo (some vlhOpaqueDemo) baseRsDemo
  have h2 := C5_miss_alpha_policy fsDemo none rsDepth1VolDemo
  constructor
  · have hc := (h.1 rfl).1 vlhOpaqueDemo rfl rfl
    rw [hc]
    rfl
  · exact h2.2.1 (by decide)

/-- **C9** (code_bug).  At the failing input — a primary (depth 0) miss ray
with path-vertex lpeStateId 5 ≥ 0 whose visible-light lookup finds a light —
the handler performs no bundled light-AOV accumulation at all: the inner
declarations at RayHandlers.cc:532 (`const Light *hitLight;`) and
RayHandlers.cc:640 (`int lpeStateId = ...`) shadow the outer variables
declared at RayHandlers.cc:527/636, so the accumulation guard at
RayHandlers.cc:652 always sees lpeStateId = -1 for primary rays.  The
intended selection described by the surrounding comments (modelled by
`missLpeStateIdIntended`) transitions state 5 by the hit-light event, which
is what the claim (and the spec) say should be accumulated. -/
theorem C9_primary_miss_light_aov_skipped :
    ((missRetireStep fsDemo (some vlhDemo) baseRsDemo).2.countP
        AovOp.isLightAovsBundled) = 0
  ∧ baseRsDemo.pv.lpeStateId = 5
  ∧ (∀ transition : ℤ → Light → ℤ,
      missLpeStateIdIntended transition (some vlhDemo) baseRsDemo =
        transition 5 vlhDemo.light) := by
  refine ⟨by decide, rfl, ?_⟩
  intro transition
  rfl

/-!  ### RayState accounting through rayBundleHandler -/

/-- Swapping the middle two of four concatenated blocks is a permutation. -/
theorem append_shuffle_perm {α : Type} (a b c d : List α) :
    ((a ++ b) ++ (c ++ d)).Perm ((a ++ c) ++ (b ++ d)) := by
  rw [List.append_assoc, List.append_assoc]
  apply List.Perm.append_left
  rw [← List.append_assoc, ← List.append_assoc]
  exact List.perm_append_comm.append_right d

/-- Each classified ray lands either in the bulk-free list or in the sort
entries, exactly once. -/
theorem phase1Step_ids (fs : FrameState) (rs : RayState) :
    (phase1Step fs rs).toFree ++
      (phase1Step fs rs).sorted.map SortedEntry.mRsIdx = [rs.rsIdx] := by
  by_cases hg : rs.geomHit = false
  · rw [(phase1Step_miss fs rs hg).1, (phase1Step_miss fs rs hg).2]
    rfl
  · have hg2 : rs.geomHit = true := by revert hg; cases rs.geomHit <;> simp
    cases hm : rs.material with
    | some m =>
      rw [(phase1Step_mat fs rs m hg2 hm).1, (phase1Step_mat fs rs m hg2 hm).2]
      rfl
    | none =>
      rw [(phase1Step_nullmat fs rs hg2 hm).1, (phase1Step_nullmat fs rs hg2 hm).2]
      rfl

/-- Over a batch, the bulk-free candidates of the classification pass plus the
indices of the surviving sort entries are exactly the submitted indices. -/
theorem phase1_batch_ids (fs : FrameState) (rays : List RayState) :
    ((rays.map (phase1Step fs)).flatMap Phase1Out.toFree ++
      (sortedEntriesOf fs rays).map SortedEntry.mRsIdx).Perm (rayIds rays) := by
  induction rays with
  | nil => simp [sortedEntriesOf, rayIds]
  | cons r rest ih =>
    simp only [sortedEntriesOf, rayIds, List.map_cons, List.flatMap_cons] at ih ⊢
    rw [List.map_append]
    refine (append_shuffle_perm _ _ _ _).trans ?_
    rw [phase1Step_ids fs r, List.singleton_append]
    exact List.Perm.cons _ ih

/-- Provenance of every surviving sort entry: it carries the ray state it was
built from, that ray's index, and either the miss key 0 or the ray's material
id. -/
theorem sortedEntriesOf_inv (fs : FrameState) (rays : List RayState) :
    ∀ e ∈ sortedEntriesOf fs rays, ∃ rs ∈ rays, e.rsRef = rs ∧ e.mRsIdx = rs.rsIdx ∧
      ((rs.geomHit = false ∧ e.mSortKey = 0) ∨
        ∃ m, rs.geomHit = true ∧ rs.material = some m ∧ e.mSortKey = m.materialId) := by
  intro e he
  unfold sortedEntriesOf at he
  obtain ⟨out, hout, he2⟩ := List.mem_flatMap.mp he
  obtain ⟨rs, hrs, hps⟩ := List.mem_map.mp hout
  subst hps
  refine ⟨rs, hrs, ?_⟩
  by_cases hg : rs.geomHit = false
  · rw [(phase1Step_miss fs rs hg).1] at he2
    simp at he2
    subst he2
    exact ⟨rfl, rfl, Or.inl ⟨hg, rfl⟩⟩
  · have hg2 : rs.geomHit = true := by revert hg; cases rs.geomHit <;> simp
    cases hm : rs.material with
    | some m =>
      rw [(phase1Step_mat fs rs m hg2 hm).1] at he2
      simp at he2
      subst he2
      exact ⟨rfl, rfl, Or.inr ⟨m, hg2, rfl, rfl⟩⟩
    | none =>
      rw [(phase1Step_nullmat fs rs hg2 hm).1] at he2
      simp at he2

/-- Every element of a ℕ list is bounded by its foldr max. -/
theorem le_foldr_max (l : List ℕ) : ∀ x ∈ l, x ≤ l.foldr max 0 := by
  induction l with
  | nil => simp
  | cons a t ih =>
    intro x hx
    rcases List.mem_cons.mp hx with h | h
    · subst h
      exact Nat.le_max_left _ _
    · exact Nat.le_trans (ih x h) (Nat.le_max_right _ _)

/-- `smartSort32` permutes the classified entries (on both of its paths). -/
theorem handlerSorted_perm (fs : FrameState) (rays : List RayState) :
    (handlerSorted fs rays).Perm (sortedEntriesOf fs rays) := by
  unfold handlerSorted smartSort32
  split
  · apply bucketSortByKey_perm
    intro e he
    exact le_foldr_max _ _ (List.mem_map.mpr ⟨e, he, rfl⟩)
  · exact cmpSortByKey_perm _

/-- `smartSort32` sorts ascending by key (on both of its paths). -/
theorem handlerSorted_sorted (fs : FrameState) (rays : List RayState) :
    List.Pairwise (fun a b => a.mSortKey ≤ b.mSortKey) (handlerSorted fs rays) := by
  unfold handlerSorted smartSort32
  split
  · exact bucketSortByKey_sorted _ _
  · exact cmpSortByKey_sorted _

/-- The equal-key runs concatenate back to the list, at any fuel. -/
theorem chunkRunsF_join :
    ∀ (fuel : ℕ) (l : List SortedEntry), (chunkRunsF fuel l).flatMap (fun r => r) = l := by
  intro fuel
  induction fuel with
  | zero =>
    intro l
    cases l with
    | nil => rfl
    | cons e rest => simp [chunkRunsF]
  | succ fuel ih =>
    intro l
    cases l with
    | nil => rfl
    | cons e rest =>
      simp only [chunkRunsF, List.flatMap_cons, ih]
      rw [List.cons_append, List.takeWhile_append_dropWhile]

theorem flatMap_map_out {α β : Type} (f : α → β) (L : List (List α)) :
    L.flatMap (fun run => run.map f) = (L.flatMap fun r => r).map f := by
  induction L with
  | nil => rfl
  | cons a t ih => simp [ih]

/-- Flattening the per-material shade batches recovers the entries, one
ShadeEntry per sorted entry. -/
theorem forwarded_of_batches (L : List (List SortedEntry)) :
    ((L.map fun run =>
        ((match run with | [] => 0 | e :: _ => e.mSortKey),
         run.map fun e => ShadeEntry.mk e.mRsIdx (shadeSortKey e.rsRef))).flatMap
      fun b => b.2.map ShadeEntry.mRsIdx) =
    (L.flatMap fun r => r).map SortedEntry.mRsIdx := by
  induction L with
  | nil => rfl
  | cons a t ih =>
    simp only [List.map_cons, List.flatMap_cons, ih, List.map_map, List.map_append]
    rfl

/-- The indices forwarded to shade queues are exactly the indices of the
post-miss-run entries: each remaining entry is submitted in exactly one
per-material batch. -/
theorem forwardedIds_eq (fs : FrameState) (lookup : RayState → Option VisibleLightHit)
    (rays : List RayState) :
    forwardedIds (rayBundleHandlerModel fs lookup rays) =
      ((handlerSorted fs rays).dropWhile (fun e => e.mSortKey = 0)).map
        SortedEntry.mRsIdx := by
  unfold rayBundleHandlerModel forwardedIds
  dsimp only
  rw [forwarded_of_batches]
  unfold chunkRuns
  rw [chunkRunsF_join]

/-- The bulk-freed indices, as the model computes them. -/
theorem freed_eq (fs : FrameState) (lookup : RayState → Option VisibleLightHit)
    (rays : List RayState) :
    (rayBundleHandlerModel fs lookup rays).freed =
      (rays.map (phase1Step fs)).flatMap Phase1Out.toFree ++
        ((handlerSorted fs rays).takeWhile fun e => e.mSortKey = 0).map
          (fun e => e.rsRef.rsIdx) := rfl

/-- On the miss run, the entry's stored index is its ray state's index. -/
theorem missRun_ids (fs : FrameState) (rays : List RayState) :
    ((handlerSorted fs rays).takeWhile fun e => e.mSortKey = 0).map
        (fun e => e.rsRef.rsIdx) =
      ((handlerSorted fs rays).takeWhile fun e => e.mSortKey = 0).map
        SortedEntry.mRsIdx := by
  apply List.map_congr_left
  intro e he
  have h1 : e ∈ handlerSorted fs rays := (List.takeWhile_sublist _).subset he
  have h2 : e ∈ sortedEntriesOf fs rays := (handlerSorted_perm fs rays).mem_iff.mp h1
  obtain ⟨rs, _, href, hid, _⟩ := sortedEntriesOf_inv fs rays e h2
  rw [href, hid]

/-- **C1** (confirmed).  For every batch processed by `rayBundleHandler` (no
cancellation), every submitted RayState exits exactly once: the freed indices
(null-material hits and retired misses) together with the indices forwarded
to shade queues form a permutation of the submitted indices, so no index is
both freed and forwarded, none is freed or forwarded twice, and the number
freed equals the number submitted minus the number forwarded.  Freed are
exactly the misses and the null-material hits. -/
theorem C1_raystate_accounting (fs : FrameState)
    (lookup : RayState → Option VisibleLightHit) (rays : List RayState)
    (hmat : ∀ rs ∈ rays, (rs.material.all fun m => decide (1 ≤ m.materialId)) = true)
    (hids : (rayIds rays).Nodup) :
    ((rayBundleHandlerModel fs lookup rays).freed ++
        forwardedIds (rayBundleHandlerModel fs lookup rays)).Perm (rayIds rays)
  ∧ (rayBundleHandlerModel fs lookup rays).freed.length +
      (forwardedIds (rayBundleHandlerModel fs lookup rays)).length = rays.length
  ∧ (rayBundleHandlerModel fs lookup rays).freed.Nodup
  ∧ (forwardedIds (rayBundleHandlerModel fs lookup rays)).Nodup
  ∧ (rayBundleHandlerModel fs lookup rays).freed.Disjoint
      (forwardedIds (rayBundleHandlerModel fs lookup rays))
  ∧ (∀ rs ∈ rays, (rs.rsIdx ∈ (rayBundleHandlerModel fs lookup rays).freed ↔
        (rs.geomHit = false ∨ rs.material = none))) := by
  have hperm : ((rayBundleHandlerModel fs lookup rays).freed ++
      forwardedIds (rayBundleHandlerModel fs lookup rays)).Perm (rayIds rays) := by
    rw [freed_eq, forwardedIds_eq, missRun_ids]
    rw [List.append_assoc, ← List.map_append, List.takeWhile_append_dropWhile]
    exact (List.Perm.append_left _ ((handlerSorted_perm fs rays).map _)).trans
      (phase1_batch_ids fs rays)
  have hnodup : ((rayBundleHandlerModel fs lookup rays).freed ++
      forwardedIds (rayBundleHandlerModel fs lookup rays)).Nodup :=
    hperm.nodup_iff.mpr hids
  obtain ⟨hnd1, hnd2, hdisj⟩ := List.nodup_append.mp hnodup
  have hids2 : (rays.map RayState.rsIdx).Nodup := hids
  have hinj := List.inj_on_of_nodup_map hids2
  refine ⟨hperm, ?_, hnd1, hnd2, hdisj, ?_⟩
  · have hlen := hperm.length_eq
    rw [List.length_append] at hlen
    simpa [rayIds] using hlen
  · intro rs hrs
    constructor
    · intro hin
      rw [freed_eq] at hin
      rcases List.mem_append.mp hin with hin | hin
      · obtain ⟨out, hout, hidx⟩ := List.mem_flatMap.mp hin
        obtain ⟨rs2, hrs2, hps⟩ := List.mem_map.mp hout
        subst hps
        by_cases hg : rs2.geomHit = false
        · rw [(phase1Step_miss fs rs2 hg).2] at hidx
          simp at hidx
        · have hg2 : rs2.geomHit = true := by revert hg; cases rs2.geomHit <;> simp
          cases hm : rs2.material with
          | some m =>
            rw [(phase1Step_mat fs rs2 m hg2 hm).2] at hidx
            simp at hidx
          | none =>
            rw [(phase1Step_nullmat fs rs2 hg2 hm).2] at hidx
            simp at hidx
            have heq : rs2 = rs := hinj hrs2 hrs hidx.symm
            right
            rw [← heq]
            exact hm
      · obtain ⟨e, he, hidx⟩ := List.mem_map.mp hin
        have h1 : e ∈ handlerSorted fs rays := (List.takeWhile_sublist _).subset he
        have hkey : e.mSortKey = 0 := by simpa using List.mem_takeWhile_imp he
        have h2 : e ∈ sortedEntriesOf fs rays :=
          (handlerSorted_perm fs rays).mem_iff.mp h1
        obtain ⟨rs2, hrs2, href, hid, hcase⟩ := sortedEntriesOf_inv fs rays e h2
        have hidx2 : rs2.rsIdx = rs.rsIdx := by
          rw [href] at hidx
          exact hidx
        rcases hcase with ⟨hg, _⟩ | ⟨m, hg, hm, hkm⟩
        · left
          have heq : rs2 = rs := hinj hrs2 hrs hidx2
          rw [← heq]
          exact hg
        · exfalso
          have h1m : 1 ≤ m.materialId := by
            have := hmat rs2 hrs2
            rw [hm] at this
            simpa using this
          rw [hkey] at hkm
          omega
    · intro hprop
      rw [freed_eq]
      by_cases hg : rs.geomHit = false
      · apply List.mem_append.mpr
        right
        have hmem : (⟨0, rs.rsIdx, none, rs⟩ : SortedEntry) ∈ sortedEntriesOf fs rays := by
          unfold sortedEntriesOf
          apply List.mem_flatMap.mpr
          refine ⟨phase1Step fs rs, List.mem_map.mpr ⟨rs, hrs, rfl⟩, ?_⟩
          rw [(phase1Step_miss fs rs hg).1]
          simp
        have hmem2 : (⟨0, rs.rsIdx, none, rs⟩ : SortedEntry) ∈ handlerSorted fs rays :=
          (handlerSorted_perm fs rays).mem_iff.mpr hmem
        have hf : (⟨0, rs.rsIdx, none, rs⟩ : SortedEntry) ∈
            (handlerSorted fs rays).takeWhile (fun e => e.mSortKey = 0) := by
          rw [takeWhile_zero_eq_filter _ (handlerSorted_sorted fs rays)]
          exact List.mem_filter.mpr ⟨hmem2, by simp⟩
        exact List.mem_map.mpr ⟨_, hf, rfl⟩
      · have hg2 : rs.geomHit = true := by revert hg; cases rs.geomHit <;> simp
        have hm : rs.material = none := by
          rcases hprop with h | h
          · exact absurd h hg
          · exact h
        apply List.mem_append.mpr
        left
        apply List.mem_flatMap.mpr
        refine ⟨phase1Step fs rs, List.mem_map.mpr ⟨rs, hrs, rfl⟩, ?_⟩
        rw [(phase1Step_nullmat fs rs hg2 hm).2]
        simp

/-- **C1** witness: the demo batch — three misses (indices 0, 1, 4), four
material hits (2, 5 with id 3; 3, 6 with id 1), one null-material volume hit
(7).  Freed: the null-material hit then the retired miss run; forwarded: the
two id-1 entries then the two id-3 entries; together a permutation of the
submitted indices. -/
theorem C1_raystate_accounting_witness :
    ((rayBundleHandlerModel fsDemo (fun _ => none) raysDemoC1).freed ++
        forwardedIds (rayBundleHandlerModel fsDemo (fun _ => none) raysDemoC1)).Perm
      (rayIds raysDemoC1)
  ∧ (rayBundleHandlerModel fsDemo (fun _ => none) raysDemoC1).freed = [7, 0, 1, 4]
  ∧ forwardedIds (rayBundleHandlerModel fsDemo (fun _ => none) raysDemoC1) =
      [3, 6, 2, 5] := by
  have h := C1_raystate_accounting fsDemo (fun _ => none) raysDemoC1
    (by decide) (by decide)
  exact ⟨h.1, by decide, by decide⟩

end MoonrayPbr
